import Mathlib

/-!
Verification of the markdown-to-wiki conversion pipeline of this repository.

The repository contains two parallel implementations of the pipeline:
`md2conf.py` (the main script) and the restructured `md_to_conf` package
(`md_to_conf/__init__.py`, `md_to_conf/converter.py`, `md_to_conf/client.py`).
Where the two differ, both are embedded and the difference is proved.

Strings are embedded as `List Char` (Python `str` indexing is by code point,
which matches `List Char` positions).  Python regular-expression operations
are embedded as explicit scanners with the exact leftmost-match semantics of
the patterns used by the source; each scanner carries a comment with the
pattern it implements.  Functions whose recursion follows a scanner jump are
written with an explicit fuel argument so that every definition is a plain
structural recursion the kernel can evaluate; the public wrappers pass
`length + 1` fuel, which is always sufficient because every step of every
scanner consumes at least one character.  Python functions that can raise
return `Option` (with `none` for the raised exception), and `sys.exit` is
likewise embedded as `none`.
-/

/-- Boolean test that `pat` is an initial segment of `s`
(embeds Python `str.startswith` and the regex engine's literal matching). -/
def leadsWith : List Char → List Char → Bool
  | [], _ => true
  | _ :: _, [] => false
  | p :: ps, c :: cs => p == c && leadsWith ps cs

/-- Split `s` at the leftmost occurrence of `pat`: returns the part strictly
before the occurrence and the part strictly after it.  This is the core of
every `re` scanner below. -/
def splitFirst (pat : List Char) : List Char → Option (List Char × List Char)
  | [] => none
  | c :: cs =>
    if leadsWith pat (c :: cs) then some ([], (c :: cs).drop pat.length)
    else (splitFirst pat cs).map (fun p => (c :: p.1, p.2))

/-- `s` has an occurrence of `pat` as a contiguous substring. -/
def hasSub (pat s : List Char) : Bool :=
  (splitFirst pat s).isSome

/-- Fuel-driven helper for `replaceAll`. -/
def replHelp (fuel : Nat) (pat rep : List Char) (s : List Char) : List Char :=
  match fuel with
  | 0 => s
  | f + 1 =>
    match splitFirst pat s with
    | none => s
    | some (a, b) => a ++ rep ++ replHelp f pat rep b

/-- Embedding of Python `s.replace(pat, rep)`: replace every occurrence of
`pat` left to right, without rescanning the replacement text. -/
def replaceAll (pat rep s : List Char) : List Char :=
  if pat = [] then s else replHelp s.length pat rep s

/-- Characters Python `str.strip()` removes (the ASCII whitespace set). -/
def isPyWs (c : Char) : Bool :=
  c = ' ' || c = '\t' || c = '\n' || c = '\r' || c = '\x0b' || c = '\x0c'

/-- Embedding of Python `str.strip()`. -/
def pyStrip (s : List Char) : List Char :=
  ((s.dropWhile isPyWs).reverse.dropWhile isPyWs).reverse

/-- The part of `s` before its first newline (what `.` in a pattern without
`re.DOTALL` is allowed to range over). -/
def takeLine (s : List Char) : List Char :=
  s.takeWhile (fun c => ¬ (c = '\n'))

/-- The rest of `s` from its first newline (inclusive). -/
def dropLine (s : List Char) : List Char :=
  s.dropWhile (fun c => ¬ (c = '\n'))

theorem leadsWith_iff (pat s : List Char) :
    leadsWith pat s = true ↔ ∃ t, s = pat ++ t := by
  induction pat generalizing s with
  | nil => simp [leadsWith]
  | cons p ps ih =>
    cases s with
    | nil =>
      simp [leadsWith]
    | cons c cs =>
      simp only [leadsWith, Bool.and_eq_true, beq_iff_eq, ih cs]
      constructor
      · rintro ⟨rfl, t, rfl⟩
        exact ⟨t, rfl⟩
      · rintro ⟨t, ht⟩
        obtain ⟨rfl, rfl⟩ : p = c ∧ cs = ps ++ t := by
          constructor
          · exact (List.cons.injEq ..).mp ht |>.1.symm
          · exact (List.cons.injEq ..).mp ht |>.2
        exact ⟨rfl, t, rfl⟩

theorem leadsWith_self_append (pat t : List Char) :
    leadsWith pat (pat ++ t) = true :=
  (leadsWith_iff pat (pat ++ t)).mpr ⟨t, rfl⟩

theorem splitFirst_sound (pat : List Char) (s a b : List Char)
    (h : splitFirst pat s = some (a, b)) : s = a ++ pat ++ b := by
  induction s generalizing a b with
  | nil => simp [splitFirst] at h
  | cons c cs ih =>
    simp only [splitFirst] at h
    split at h
    · rename_i hp
      obtain ⟨rfl, rfl⟩ : a = [] ∧ (c :: cs).drop pat.length = b := by
        simpa using h
      obtain ⟨t, ht⟩ := (leadsWith_iff pat (c :: cs)).mp hp
      simp [ht, List.drop_left]
    · simp only [Option.map_eq_some'] at h
      obtain ⟨⟨a', b'⟩, h1, h2⟩ := h
      simp only [Prod.mk.injEq] at h2
      obtain ⟨h2a, h2b⟩ := h2
      subst h2a
      subst h2b
      have := ih _ _ h1
      subst this
      simp

theorem splitFirst_length (pat s a b : List Char)
    (h : splitFirst pat s = some (a, b)) :
    s.length = a.length + pat.length + b.length := by
  have := splitFirst_sound pat s a b h
  subst this
  simp
  omega

theorem splitFirst_ne_nil (pat s a b : List Char)
    (h : splitFirst pat s = some (a, b)) : s ≠ [] := by
  intro hs
  subst hs
  simp [splitFirst] at h

theorem hasSub_tail (pat : List Char) (c : Char) (cs : List Char)
    (h : hasSub pat (c :: cs) = false) : hasSub pat cs = false := by
  simp only [hasSub, splitFirst] at h ⊢
  split at h
  · simp at h
  · simpa using h

theorem splitFirst_self (pat b : List Char) (hp : pat ≠ []) :
    splitFirst pat (pat ++ b) = some ([], b) := by
  cases pat with
  | nil => exact absurd rfl hp
  | cons p ps =>
    show splitFirst (p :: ps) (p :: (ps ++ b)) = some ([], b)
    have hl : leadsWith (p :: ps) (p :: (ps ++ b)) = true := by
      have : p :: (ps ++ b) = (p :: ps) ++ b := by simp
      rw [this]
      exact leadsWith_self_append ..
    simp only [splitFirst, hl, if_true]
    simp [List.drop_left]

theorem hasSub_of_middle (pat x t : List Char) (hp : pat ≠ []) :
    hasSub pat (x ++ pat ++ t) = true := by
  induction x with
  | nil =>
    simp only [hasSub, List.nil_append, splitFirst_self pat t hp]
    rfl
  | cons c x' ih =>
    have hform : (c :: x') ++ pat ++ t = c :: (x' ++ pat ++ t) := by simp
    rw [hform]
    simp only [hasSub, splitFirst]
    split
    · rfl
    · simp only [Option.isSome_map']
      simpa [hasSub] using ih

theorem splitFirst_none_of_not_mem (p : Char) (ps s : List Char)
    (h : p ∉ s) : splitFirst (p :: ps) s = none := by
  induction s with
  | nil => rfl
  | cons c cs ih =>
    simp only [splitFirst, leadsWith]
    have hpc : (p == c) = false := by
      simp only [beq_eq_false_iff_ne]
      intro hh
      exact h (hh ▸ List.mem_cons_self c cs)
    simp only [hpc, Bool.false_and, if_false]
    rw [ih (fun hm => h (List.mem_cons_of_mem c hm))]
    rfl

/-- The leftmost occurrence of `pat` in `a ++ pat ++ b` is the explicit one,
provided `pat` does not occur inside `a`, and `pat` has no proper border
(no nonempty proper prefix of `pat` is also a suffix), which rules out an
occurrence straddling the boundary.  The border condition is decidable and
is discharged by `decide` at each concrete pattern. -/
theorem splitFirst_exact (pat a b : List Char) (hp : pat ≠ [])
    (hnb : ∀ j, 0 < j → j < pat.length →
      pat.take j ≠ pat.drop (pat.length - j))
    (hsub : hasSub pat a = false) :
    splitFirst pat (a ++ pat ++ b) = some (a, b) := by
  induction a with
  | nil =>
    simp only [List.nil_append]
    exact splitFirst_self pat b hp
  | cons c a' ih =>
    have hlw : leadsWith pat ((c :: a') ++ (pat ++ b)) = false := by
      by_contra hcon
      simp only [Bool.not_eq_false] at hcon
      obtain ⟨t, ht⟩ := (leadsWith_iff _ _).mp hcon
      by_cases hlen : pat.length ≤ (c :: a').length
      · have h1 := congrArg (List.take pat.length) ht
        rw [List.take_append_eq_append_take, Nat.sub_eq_zero_of_le hlen,
          List.take_left] at h1
        simp only [List.take_zero, List.append_nil] at h1
        have hdec : c :: a' = pat ++ (c :: a').drop pat.length := by
          conv_lhs => rw [← List.take_append_drop pat.length (c :: a')]
          rw [h1]
        have hocc : hasSub pat (c :: a') = true := by
          rw [hdec]
          have := hasSub_of_middle pat [] ((c :: a').drop pat.length) hp
          simpa using this
        rw [hocc] at hsub
        cases hsub
      · push_neg at hlen
        have h2 := congrArg (List.drop (c :: a').length) ht
        rw [List.drop_left, List.drop_append_eq_append_drop,
          Nat.sub_eq_zero_of_le (Nat.le_of_lt hlen)] at h2
        simp only [List.drop_zero, List.nil_append] at h2
        set j : Nat := pat.length - (c :: a').length with hj_def
        have h3 := congrArg (List.take j) h2
        rw [List.take_append_eq_append_take, Nat.sub_eq_zero_of_le
          (by omega : j ≤ pat.length)] at h3
        simp only [List.take_zero, List.append_nil] at h3
        have hdl : (pat.drop (c :: a').length).length = j := by
          simp [hj_def]
        rw [List.take_append_eq_append_take, hdl, Nat.sub_self,
          List.take_zero, List.append_nil] at h3
        have h8 : (pat.drop (c :: a').length).take j
            = pat.drop (c :: a').length := by
          rw [← hdl]
          exact List.take_length _
        have hj0 : 0 < j := by
          rw [hj_def]
          omega
        have hjlt : j < pat.length := by
          have h5 : 0 < (c :: a').length := by simp
          rw [hj_def]
          omega
        refine hnb j hj0 hjlt ?_
        have h7 : pat.length - j = (c :: a').length := by
          rw [hj_def]
          omega
        rw [h7, h3, h8]
    have hform : (c :: a') ++ pat ++ b = c :: (a' ++ pat ++ b) := by simp
    rw [hform]
    simp only [splitFirst]
    have hlw' : leadsWith pat (c :: (a' ++ pat ++ b)) = false := by
      have he : c :: (a' ++ pat ++ b) = (c :: a') ++ (pat ++ b) := by simp
      rw [he]
      exact hlw
    rw [hlw']
    simp only [Bool.false_eq_true, if_false]
    rw [ih (hasSub_tail pat c a' hsub)]
    rfl

theorem replHelp_nil (f : Nat) (pat rep : List Char) :
    replHelp f pat rep [] = [] := by
  cases f with
  | zero => rfl
  | succ f => simp [replHelp, splitFirst]

theorem replHelp_fuel (f g : Nat) (pat rep s : List Char) (hp : pat ≠ [])
    (hf : s.length ≤ f) (hg : s.length ≤ g) :
    replHelp f pat rep s = replHelp g pat rep s := by
  induction f generalizing g s with
  | zero =>
    have : s = [] := by
      cases s with
      | nil => rfl
      | cons c cs => simp at hf
    subst this
    rw [replHelp_nil, replHelp_nil]
  | succ f ih =>
    cases g with
    | zero =>
      have : s = [] := by
        cases s with
        | nil => rfl
        | cons c cs => simp at hg
      subst this
      rw [replHelp_nil, replHelp_nil]
    | succ g =>
      simp only [replHelp]
      cases hsp : splitFirst pat s with
      | none => rfl
      | some ab =>
        obtain ⟨a, b⟩ := ab
        have hlen := splitFirst_length pat s a b hsp
        have hpat1 : 1 ≤ pat.length := by
          cases pat with
          | nil => exact absurd rfl hp
          | cons p ps => simp
        show a ++ rep ++ replHelp f pat rep b
            = a ++ rep ++ replHelp g pat rep b
        rw [ih g b (by omega) (by omega)]

theorem replaceAll_nil (pat rep : List Char) : replaceAll pat rep [] = [] := by
  simp [replaceAll, replHelp_nil]

theorem replaceAll_of_none (pat rep s : List Char)
    (h : splitFirst pat s = none) : replaceAll pat rep s = s := by
  simp only [replaceAll]
  split
  · rfl
  · cases hl : s.length with
    | zero => rfl
    | succ n => simp [replHelp, h]

theorem replaceAll_step (pat rep s a b : List Char) (hp : pat ≠ [])
    (h : splitFirst pat s = some (a, b)) :
    replaceAll pat rep s = a ++ rep ++ replaceAll pat rep b := by
  simp only [replaceAll, hp, if_neg, if_false]
  have hne := splitFirst_ne_nil pat s a b h
  have hlen := splitFirst_length pat s a b h
  have hpat1 : 1 ≤ pat.length := by
    cases pat with
    | nil => exact absurd rfl hp
    | cons p ps => simp
  cases hsl : s.length with
  | zero =>
    exfalso
    exact hne (List.length_eq_zero.mp hsl)
  | succ n =>
    simp only [replHelp, h]
    rw [replHelp_fuel n b.length pat rep b hp (by omega) (by omega)]

/-- `replaceAll` is the identity when the pattern does not occur. -/
theorem replaceAll_id (pat rep s : List Char) (h : hasSub pat s = false) :
    replaceAll pat rep s = s := by
  cases hsp : splitFirst pat s with
  | none => exact replaceAll_of_none pat rep s hsp
  | some ab =>
    rw [hasSub, hsp] at h
    cases h

/-! ### CDATA escaping (`convert_code_block`, `md2conf.py` lines 180-211)

`md2conf.py` escapes a code body with
`content.replace("]]", "]]]]><![CDATA[")` before wrapping it in
`<![CDATA[` ... `]]>`.  The package variant
(`md_to_conf/converter.py` lines 71-115, `md_to_conf/__init__.py` lines
232-269) omits this escaping step.  `cdataDecode` is the specification-side
reader: it parses a maximal sequence of CDATA sections, each terminated by
the first `]]>` after its `<![CDATA[` opener, and returns the concatenated
section contents, or `none` when the text is not a well-formed sequence of
sections. -/

/-- The pattern `]]` replaced by `convert_code_block`. -/
def ddPat : List Char := "]]".data

/-- The replacement text `]]]]><![CDATA[` used by `convert_code_block`. -/
def ddRep : List Char := "]]]]><![CDATA[".data

/-- `content.replace("]]", "]]]]><![CDATA[")` from `convert_code_block`. -/
def cdataEscape (s : List Char) : List Char := replaceAll ddPat ddRep s

/-- The CDATA section opener `<![CDATA[` (9 characters). -/
def cdataHead : List Char := "<![CDATA[".data

/-- The CDATA section terminator `]]>`. -/
def cdataStop : List Char := "]]>".data

/-- One pass of the CDATA-sequence reader: scans for the first `]]>`; at the
terminator, either the input ends or another `<![CDATA[` section follows. -/
def decF : Nat → List Char → Option (List Char)
  | 0, _ => none
  | f + 1, s =>
    if leadsWith cdataStop s then
      if s.drop 3 = [] then some []
      else if leadsWith cdataHead (s.drop 3) then decF f ((s.drop 3).drop 9)
      else none
    else
      match s with
      | [] => none
      | c :: cs => (decF f cs).map (fun r => c :: r)

/-- Parse a string as a nonempty sequence of CDATA sections and return the
concatenation of their contents. -/
def cdataDecode (s : List Char) : Option (List Char) :=
  if leadsWith cdataHead s then decF s.length (s.drop 9) else none

theorem cdataEscape_nil : cdataEscape [] = [] := replaceAll_nil ..

theorem cdataEscape_dd (t : List Char) :
    cdataEscape (']' :: ']' :: t) = ddRep ++ cdataEscape t := by
  have hsp : splitFirst ddPat (']' :: ']' :: t) = some ([], t) := rfl
  have := replaceAll_step ddPat ddRep (']' :: ']' :: t) [] t
    (by simp [ddPat]) hsp
  simpa [cdataEscape] using this

theorem cdataEscape_cons (c : Char) (t : List Char)
    (h : leadsWith ddPat (c :: t) = false) :
    cdataEscape (c :: t) = c :: cdataEscape t := by
  cases hsp : splitFirst ddPat t with
  | none =>
    have hsp2 : splitFirst ddPat (c :: t) = none := by
      simp only [splitFirst, h, Bool.false_eq_true, if_false, hsp]
      rfl
    rw [cdataEscape, replaceAll_of_none ddPat ddRep _ hsp2,
      cdataEscape, replaceAll_of_none ddPat ddRep _ hsp]
  | some ab =>
    obtain ⟨a, b⟩ := ab
    have hsp2 : splitFirst ddPat (c :: t) = some (c :: a, b) := by
      simp only [splitFirst, h, Bool.false_eq_true, if_false, hsp]
      rfl
    rw [cdataEscape, replaceAll_step ddPat ddRep _ _ _ (by simp [ddPat]) hsp2,
      cdataEscape, replaceAll_step ddPat ddRep _ _ _ (by simp [ddPat]) hsp]
    simp

theorem decF_stop (f : Nat) (s : List Char)
    (h : leadsWith cdataStop s = true) :
    decF (f + 1) s =
      (if s.drop 3 = [] then some []
       else if leadsWith cdataHead (s.drop 3) then decF f ((s.drop 3).drop 9)
       else none) := by
  simp [decF, h]

theorem decF_cons (f : Nat) (c : Char) (cs : List Char)
    (h : leadsWith cdataStop (c :: cs) = false) :
    decF (f + 1) (c :: cs) = (decF f cs).map (fun r => c :: r) := by
  simp [decF, h]

theorem cdataEscape_dd_length (t : List Char) :
    (cdataEscape (']' :: ']' :: t)).length = 14 + (cdataEscape t).length := by
  rw [cdataEscape_dd]
  simp [ddRep]
  omega

theorem cdataEscape_cons_length (c : Char) (t : List Char)
    (h : leadsWith ddPat (c :: t) = false) :
    (cdataEscape (c :: t)).length = 1 + (cdataEscape t).length := by
  rw [cdataEscape_cons c t h]
  simp
  omega

/-- Main induction for the CDATA round trip: reading the escaped body plus
its final terminator recovers exactly the original content. -/
theorem decF_escape (n : Nat) : ∀ s f, s.length ≤ n →
    (cdataEscape s).length + 4 ≤ f →
    decF f (cdataEscape s ++ cdataStop) = some s := by
  induction n with
  | zero =>
    intro s f hs hf
    have hnil : s = [] := List.length_eq_zero.mp (Nat.le_zero.mp hs)
    subst hnil
    rw [cdataEscape_nil] at hf ⊢
    obtain ⟨f', rfl⟩ : ∃ f', f = f' + 1 := ⟨f - 1, by omega⟩
    simp only [List.nil_append]
    rw [decF_stop f' cdataStop (by rfl)]
    rfl
  | succ n ih =>
    intro s f hs hf
    cases hdd : leadsWith ddPat s with
    | true =>
      obtain ⟨t, rfl⟩ := (leadsWith_iff ddPat s).mp hdd
      have hs2 : ddPat ++ t = ']' :: ']' :: t := rfl
      rw [hs2] at hs hf ⊢
      rw [cdataEscape_dd] at hf ⊢
      have hlen14 : (ddRep ++ cdataEscape t).length
          = 14 + (cdataEscape t).length := by
        simp [ddRep]
        omega
      obtain ⟨f3, rfl⟩ : ∃ f3, f = f3 + 3 := ⟨f - 3, by omega⟩
      have hstream : (ddRep ++ cdataEscape t) ++ cdataStop
          = ']' :: (']' :: (cdataStop
            ++ (cdataHead ++ (cdataEscape t ++ cdataStop)))) := rfl
      rw [hstream]
      rw [decF_cons (f3 + 2) ']' _ (by rfl)]
      rw [decF_cons (f3 + 1) ']' _ (by rfl)]
      rw [decF_stop f3 _ (leadsWith_self_append ..)]
      have hdrop : (cdataStop
          ++ (cdataHead ++ (cdataEscape t ++ cdataStop))).drop 3
          = cdataHead ++ (cdataEscape t ++ cdataStop) := by
        rw [show (3 : Nat) = cdataStop.length from rfl, List.drop_left]
      rw [hdrop]
      have hne : cdataHead ++ (cdataEscape t ++ cdataStop) ≠ [] := by
        simp [cdataHead]
      rw [if_neg hne, if_pos (leadsWith_self_append ..)]
      have hdrop9 : (cdataHead ++ (cdataEscape t ++ cdataStop)).drop 9
          = cdataEscape t ++ cdataStop := by
        rw [show (9 : Nat) = cdataHead.length from rfl, List.drop_left]
      rw [hdrop9]
      rw [ih t f3 (by simp at hs; omega) (by simp [ddRep] at hf; omega)]
      rfl
    | false =>
      cases s with
      | nil =>
        rw [cdataEscape_nil] at hf ⊢
        obtain ⟨f', rfl⟩ : ∃ f', f = f' + 1 := ⟨f - 1, by omega⟩
        simp only [List.nil_append]
        rw [decF_stop f' cdataStop (by rfl)]
        rfl
      | cons c t =>
        rw [cdataEscape_cons c t hdd] at hf ⊢
        have hlw : leadsWith cdataStop (c :: (cdataEscape t ++ cdataStop))
            = false := by
          by_cases hc : c = ']'
          · subst hc
            have hdd' : leadsWith [']'] t = false := by
              have : leadsWith ddPat (']' :: t)
                  = leadsWith [']'] t := by
                show ((']' == ']') && leadsWith [']'] t) = leadsWith [']'] t
                simp
              rw [this] at hdd
              exact hdd
            cases t with
            | nil =>
              rw [cdataEscape_nil]
              rfl
            | cons d t' =>
              have hd : (']' == d) = false := by
                have : leadsWith [']'] (d :: t')
                    = ((']' == d) && true) := by
                  show ((']' == d) && leadsWith [] t') = ((']' == d) && true)
                  rfl
                rw [this] at hdd'
                simpa using hdd'
              have hddt : leadsWith ddPat (d :: t') = false := by
                show ((']' == d) && leadsWith [']'] t') = false
                rw [hd]
                rfl
              rw [cdataEscape_cons d t' hddt]
              show ((']' == ']') && ((']' == d) && _)) = false
              rw [hd]
              simp
          · show ((']' == c) && _) = false
            have : (']' == c) = false := by
              simp only [beq_eq_false_iff_ne]
              exact fun hh => hc hh.symm
            rw [this]
            rfl
        have hform : (c :: cdataEscape t) ++ cdataStop
            = c :: (cdataEscape t ++ cdataStop) := rfl
        rw [hform]
        obtain ⟨f', rfl⟩ : ∃ f', f = f' + 1 := ⟨f - 1, by omega⟩
        rw [decF_cons f' c _ hlw]
        rw [ih t f' (by simp at hs; omega) (by simp at hf; omega)]
        rfl

/-- CDATA round trip for the escaping performed by `md2conf.py`'s
`convert_code_block`: wrapping the escaped body and reading it back as a
sequence of CDATA sections recovers the original body exactly; in
particular no `]]>` inside the body ever terminates a section early. -/
theorem cdataDecode_cdataEscape (s : List Char) :
    cdataDecode (cdataHead ++ cdataEscape s ++ cdataStop) = some s := by
  rw [cdataDecode, List.append_assoc, if_pos (leadsWith_self_append ..)]
  have hdrop : (cdataHead ++ (cdataEscape s ++ cdataStop)).drop 9
      = cdataEscape s ++ cdataStop := by
    rw [show (9 : Nat) = cdataHead.length from rfl, List.drop_left]
  rw [hdrop]
  apply decF_escape s.length s _ le_rfl
  simp [cdataHead, cdataStop]

/-! ### `convert_code_block` (`md2conf.py` lines 180-211 and the package
variant, `md_to_conf/converter.py` lines 71-115 /
`md_to_conf/__init__.py` lines 232-269) -/

/-- Literal `<pre><code` opening both regexes on code blocks. -/
def preCode : List Char := "<pre><code".data

/-- Literal `</code></pre>` closing both regexes on code blocks. -/
def closeCode : List Char := "</code></pre>".data

/-- Literal `code class="` of the language-extraction pattern. -/
def classLit : List Char := "code class=\"".data

/-- The macro text up to the language parameter value. -/
def codeMacroPre : List Char :=
  ("<ac:structured-macro ac:name=\"code\">"
    ++ "<ac:parameter ac:name=\"theme\">Midnight</ac:parameter>"
    ++ "<ac:parameter ac:name=\"linenumbers\">true</ac:parameter>"
    ++ "<ac:parameter ac:name=\"language\">").data

/-- Literal `</ac:parameter>` after the language value. -/
def langClose : List Char := "</ac:parameter>".data

/-- Literal `<ac:plain-text-body>`. -/
def ptbOpen : List Char := "<ac:plain-text-body>".data

/-- Literal `</ac:plain-text-body>`. -/
def ptbClose : List Char := "</ac:plain-text-body>".data

/-- Literal `</ac:structured-macro>`. -/
def macroClose : List Char := "</ac:structured-macro>".data

/-- The CDATA-wrapped body as built by `md2conf.py` (escaped before
wrapping). -/
def mdCdataBody (content : List Char) : List Char :=
  cdataHead ++ cdataEscape content ++ cdataStop

/-- The CDATA-wrapped body as built by the `md_to_conf` package (no
escaping step). -/
def pkgCdataBody (content : List Char) : List Char :=
  cdataHead ++ content ++ cdataStop

/-- The four final substitutions
`.replace('&lt;','<').replace('&gt;','>').replace('&quot;','"').replace('&amp;','&')`. -/
def entityRev (s : List Char) : List Char :=
  replaceAll "&amp;".data "&".data
    (replaceAll "&quot;".data "\"".data
      (replaceAll "&gt;".data ">".data
        (replaceAll "&lt;".data "<".data s)))

/-- Scanner for `re.findall(r'<pre><code.*?>.*?</code></pre>', html,
re.DOTALL)`: at each position, a match needs the literal `<pre><code`,
then (lazily) the first `>`, then (lazily) the first `</code></pre>`;
scanning resumes after the match. -/
def findCodeBlocksF : Nat → List Char → List (List Char)
  | 0, _ => []
  | f + 1, s =>
    if leadsWith preCode s then
      match splitFirst ['>'] (s.drop 10) with
      | some (attrs, r1) =>
        match splitFirst closeCode r1 with
        | some (body, r2) =>
          (preCode ++ attrs ++ '>' :: (body ++ closeCode))
            :: findCodeBlocksF f r2
        | none => findCodeBlocksF f s.tail
      | none => findCodeBlocksF f s.tail
    else findCodeBlocksF f s.tail

/-- `re.findall` of the code-block pattern. -/
def findCodeBlocks (s : List Char) : List (List Char) :=
  findCodeBlocksF (s.length + 1) s

/-- The text before the last `"` of `line` (the greedy `(.*)"` capture),
or `none` when `line` has no `"`. -/
def lastQuote (line : List Char) : Option (List Char) :=
  match splitFirst ['"'] line.reverse with
  | none => none
  | some p => some p.2.reverse

/-- Scanner for `re.search('code class="(.*)"', tag)`: at each occurrence
of the literal, the greedy `.*` runs to the last `"` on the same line;
without a closing `"` on that line the search continues at the next
occurrence. -/
def findClassLangF : Nat → List Char → Option (List Char)
  | 0, _ => none
  | f + 1, s =>
    match splitFirst classLit s with
    | none => none
    | some (_, post) =>
      match lastQuote (takeLine post) with
      | some cap => some cap
      | none => findClassLangF f post

/-- `re.search('code class="(.*)"', tag)`, returning the captured group. -/
def findClassLang (s : List Char) : Option (List Char) :=
  findClassLangF (s.length + 1) s

/-- Scanner for `re.search(r'<pre><code.*?>(.*?)</code></pre>', tag,
re.DOTALL).group(1)`. -/
def extractBodyF : Nat → List Char → Option (List Char)
  | 0, _ => none
  | f + 1, s =>
    if leadsWith preCode s then
      match splitFirst ['>'] (s.drop 10) with
      | some (_, r1) =>
        match splitFirst closeCode r1 with
        | some (body, _) => some body
        | none => extractBodyF f s.tail
      | none => extractBodyF f s.tail
    else extractBodyF f s.tail

/-- The `group(1)` body extraction of `convert_code_block`. -/
def extractBody (s : List Char) : Option (List Char) :=
  extractBodyF (s.length + 1) s

/-- One iteration of the `convert_code_block` loop: assemble the macro for
one matched block.  `esc` is `true` for `md2conf.py` (which escapes `]]`
in the body) and `false` for the `md_to_conf` package variant (which does
not).  `none` embeds the `AttributeError` raised if the body re-search
failed (unreachable for tags produced by `findCodeBlocks`). -/
def convertOneCode (esc : Bool) (tag : List Char) : Option (List Char) :=
  let lang := match findClassLang tag with
    | some l => l
    | none => "none".data
  match extractBody tag with
  | none => none
  | some body =>
    some (entityRev (codeMacroPre ++ lang ++ langClose ++ ptbOpen
      ++ (if esc then mdCdataBody body else pkgCdataBody body)
      ++ ptbClose ++ macroClose))

/-- The `for tag in code_blocks` loop of `convert_code_block`. -/
def convertCodeLoop (esc : Bool) : List (List Char) → List Char →
    Option (List Char)
  | [], html => some html
  | tag :: rest, html =>
    match convertOneCode esc tag with
    | none => none
    | some confMl => convertCodeLoop esc rest (replaceAll tag confMl html)

/-- `convert_code_block` of `md2conf.py` (with the `]]` escaping step). -/
def convertCodeBlock (html : List Char) : Option (List Char) :=
  convertCodeLoop true (findCodeBlocks html) html

/-- `convert_code_block` of `md_to_conf/converter.py` and
`md_to_conf/__init__.py` (no `]]` escaping step). -/
def pkgConvertCodeBlock (html : List Char) : Option (List Char) :=
  convertCodeLoop false (findCodeBlocks html) html

/-! ### Symbolic evaluation lemmas for `convert_code_block` -/

theorem findCodeBlocksF_nil (f : Nat) : findCodeBlocksF f [] = [] := by
  induction f with
  | zero => rfl
  | succ f ih =>
    show (if leadsWith preCode [] then _ else findCodeBlocksF f []) = []
    rw [if_neg (by simp [preCode, leadsWith])]
    exact ih

theorem hasSub_of_not_mem (p : Char) (ps s : List Char) (h : p ∉ s) :
    hasSub (p :: ps) s = false := by
  simp [hasSub, splitFirst_none_of_not_mem p ps s h]

/-- `</code></pre>` has no proper border. -/
theorem noBorder_closeCode : ∀ j, 0 < j → j < closeCode.length →
    closeCode.take j ≠ closeCode.drop (closeCode.length - j) := by
  intro j h1 h2
  have hl : closeCode.length = 13 := rfl
  rw [hl] at h2 ⊢
  interval_cases j <;> decide

/-- `code class="` has no proper border. -/
theorem noBorder_classLit : ∀ j, 0 < j → j < classLit.length →
    classLit.take j ≠ classLit.drop (classLit.length - j) := by
  intro j h1 h2
  have hl : classLit.length = 12 := rfl
  rw [hl] at h2 ⊢
  interval_cases j <;> decide

theorem findCodeBlocksF_succ (f : Nat) (s : List Char) :
    findCodeBlocksF (f + 1) s =
      if leadsWith preCode s then
        match splitFirst ['>'] (s.drop 10) with
        | some (attrs, r1) =>
          match splitFirst closeCode r1 with
          | some (body, r2) =>
            (preCode ++ attrs ++ '>' :: (body ++ closeCode))
              :: findCodeBlocksF f r2
          | none => findCodeBlocksF f s.tail
        | none => findCodeBlocksF f s.tail
      else findCodeBlocksF f s.tail := rfl

theorem extractBodyF_succ (f : Nat) (s : List Char) :
    extractBodyF (f + 1) s =
      if leadsWith preCode s then
        match splitFirst ['>'] (s.drop 10) with
        | some (_, r1) =>
          match splitFirst closeCode r1 with
          | some (body, _) => some body
          | none => extractBodyF f s.tail
        | none => extractBodyF f s.tail
      else extractBodyF f s.tail := rfl

/-- A single well-formed code block is matched whole by the findall
scanner, and nothing follows it. -/
theorem findCodeBlocks_single (attrs body : List Char)
    (ha : '>' ∉ attrs) (hb : hasSub closeCode body = false) :
    findCodeBlocks (preCode ++ (attrs ++ '>' :: (body ++ closeCode)))
      = [preCode ++ (attrs ++ '>' :: (body ++ closeCode))] := by
  have hlw : leadsWith preCode
      (preCode ++ (attrs ++ '>' :: (body ++ closeCode))) = true :=
    leadsWith_self_append ..
  have hdrop : (preCode ++ (attrs ++ '>' :: (body ++ closeCode))).drop 10
      = attrs ++ '>' :: (body ++ closeCode) := by
    rw [show (10 : Nat) = preCode.length from rfl, List.drop_left]
  have hsp1 : splitFirst ['>'] (attrs ++ '>' :: (body ++ closeCode))
      = some (attrs, body ++ closeCode) := by
    have h0 : attrs ++ '>' :: (body ++ closeCode)
        = attrs ++ ['>'] ++ (body ++ closeCode) := by simp
    rw [h0]
    exact splitFirst_exact ['>'] attrs (body ++ closeCode) (by simp)
      (by intro j hj1 hj2; simp at hj2; omega)
      (hasSub_of_not_mem '>' [] attrs ha)
  have hsp2 : splitFirst closeCode (body ++ closeCode)
      = some (body, []) := by
    have h0 : body ++ closeCode = body ++ closeCode ++ [] := by simp
    rw [h0]
    exact splitFirst_exact closeCode body [] (by simp [closeCode])
      noBorder_closeCode hb
  rw [findCodeBlocks, findCodeBlocksF_succ]
  simp only [hlw, if_true, hdrop, hsp1, hsp2, findCodeBlocksF_nil]
  simp

theorem extractBody_of (attrs body : List Char)
    (ha : '>' ∉ attrs) (hb : hasSub closeCode body = false) :
    extractBody (preCode ++ (attrs ++ '>' :: (body ++ closeCode)))
      = some body := by
  have hlw : leadsWith preCode
      (preCode ++ (attrs ++ '>' :: (body ++ closeCode))) = true :=
    leadsWith_self_append ..
  have hdrop : (preCode ++ (attrs ++ '>' :: (body ++ closeCode))).drop 10
      = attrs ++ '>' :: (body ++ closeCode) := by
    rw [show (10 : Nat) = preCode.length from rfl, List.drop_left]
  have hsp1 : splitFirst ['>'] (attrs ++ '>' :: (body ++ closeCode))
      = some (attrs, body ++ closeCode) := by
    have h0 : attrs ++ '>' :: (body ++ closeCode)
        = attrs ++ ['>'] ++ (body ++ closeCode) := by simp
    rw [h0]
    exact splitFirst_exact ['>'] attrs (body ++ closeCode) (by simp)
      (by intro j hj1 hj2; simp at hj2; omega)
      (hasSub_of_not_mem '>' [] attrs ha)
  have hsp2 : splitFirst closeCode (body ++ closeCode)
      = some (body, []) := by
    have h0 : body ++ closeCode = body ++ closeCode ++ [] := by simp
    rw [h0]
    exact splitFirst_exact closeCode body [] (by simp [closeCode])
      noBorder_closeCode hb
  rw [extractBody, extractBodyF_succ]
  simp only [hlw, if_true, hdrop, hsp1, hsp2]

theorem takeLine_cons (c : Char) (s : List Char) (h : c ≠ '\n') :
    takeLine (c :: s) = c :: takeLine s := by
  simp [takeLine, List.takeWhile_cons, h]

theorem takeLine_append (x y : List Char) (h : '\n' ∉ x) :
    takeLine (x ++ y) = x ++ takeLine y := by
  rw [takeLine, takeLine, List.takeWhile_append_of_pos]
  intro a ha
  simp only [decide_eq_true_eq]
  intro hh
  exact h (hh ▸ ha)

theorem mem_of_mem_takeLine (c : Char) (s : List Char)
    (h : c ∈ takeLine s) : c ∈ s := by
  induction s with
  | nil => simp [takeLine] at h
  | cons a t ih =>
    by_cases ha : a = '\n'
    · subst ha
      simp [takeLine, List.takeWhile_cons] at h
    · rw [takeLine_cons a t ha] at h
      rcases List.mem_cons.mp h with h1 | h2
      · exact h1 ▸ List.mem_cons_self a t
      · exact List.mem_cons_of_mem a (ih h2)

theorem mem_takeLine_append (c : Char) (x y : List Char)
    (h : c ∈ takeLine (x ++ y)) : c ∈ takeLine x ∨ c ∈ y := by
  induction x with
  | nil =>
    exact Or.inr (mem_of_mem_takeLine c y (by simpa using h))
  | cons a x' ih =>
    by_cases ha : a = '\n'
    · subst ha
      simp [takeLine, List.takeWhile_cons] at h
    · rw [List.cons_append, takeLine_cons a (x' ++ y) ha] at h
      rcases List.mem_cons.mp h with h1 | h2
      · left
        rw [takeLine_cons a x' ha]
        exact h1 ▸ List.mem_cons_self ..
      · rcases ih h2 with h3 | h3
        · left
          rw [takeLine_cons a x' ha]
          exact List.mem_cons_of_mem a h3
        · exact Or.inr h3

theorem replaceAll_self (pat rep : List Char) (hp : pat ≠ []) :
    replaceAll pat rep pat = rep := by
  have h := splitFirst_self pat [] hp
  rw [List.append_nil] at h
  rw [replaceAll_step pat rep pat [] [] hp h, replaceAll_nil]
  simp

theorem entityRev_id (s : List Char) (h : '&' ∉ s) : entityRev s = s := by
  rw [entityRev]
  have h1 : splitFirst "&lt;".data s = none :=
    splitFirst_none_of_not_mem '&' "lt;".data s h
  have h2 : splitFirst "&gt;".data s = none :=
    splitFirst_none_of_not_mem '&' "gt;".data s h
  have h3 : splitFirst "&quot;".data s = none :=
    splitFirst_none_of_not_mem '&' "quot;".data s h
  have h4 : splitFirst "&amp;".data s = none :=
    splitFirst_none_of_not_mem '&' "amp;".data s h
  rw [replaceAll_of_none _ _ _ h1, replaceAll_of_none _ _ _ h2,
    replaceAll_of_none _ _ _ h3, replaceAll_of_none _ _ _ h4]

theorem mem_cdataEscape (n : Nat) : ∀ s, s.length ≤ n → ∀ c,
    c ∈ cdataEscape s → c ∈ s ∨ c ∈ ddRep := by
  induction n with
  | zero =>
    intro s hs c hc
    have : s = [] := List.length_eq_zero.mp (Nat.le_zero.mp hs)
    subst this
    rw [cdataEscape_nil] at hc
    simp at hc
  | succ n ih =>
    intro s hs c hc
    cases hdd : leadsWith ddPat s with
    | true =>
      obtain ⟨t, rfl⟩ := (leadsWith_iff ddPat s).mp hdd
      have hs2 : ddPat ++ t = ']' :: ']' :: t := rfl
      rw [hs2] at hs hc ⊢
      rw [cdataEscape_dd] at hc
      rcases List.mem_append.mp hc with h1 | h2
      · exact Or.inr h1
      · rcases ih t (by simp at hs; omega) c h2 with h3 | h3
        · exact Or.inl (List.mem_cons_of_mem _ (List.mem_cons_of_mem _ h3))
        · exact Or.inr h3
    | false =>
      cases s with
      | nil =>
        rw [cdataEscape_nil] at hc
        simp at hc
      | cons c' t =>
        rw [cdataEscape_cons c' t hdd] at hc
        rcases List.mem_cons.mp hc with h1 | h2
        · exact Or.inl (h1 ▸ List.mem_cons_self ..)
        · rcases ih t (by simp at hs; omega) c h2 with h3 | h3
          · exact Or.inl (List.mem_cons_of_mem _ h3)
          · exact Or.inr h3

theorem not_mem_cdataEscape_amp (body : List Char) (h : '&' ∉ body) :
    '&' ∉ cdataEscape body := by
  intro hm
  rcases mem_cdataEscape body.length body le_rfl '&' hm with h1 | h1
  · exact h h1
  · exact absurd h1 (by decide)

/-- An input consisting of one code block with a `class` attribute, as the
renderer produces it for a fenced code block with a language. -/
def codeTag (lang body : List Char) : List Char :=
  "<pre><code class=\"".data ++ (lang ++ ("\">".data ++ (body ++ closeCode)))

/-- The code macro `convert_code_block` is specified to produce: theme
`Midnight`, line numbers on, the given language parameter, and the given
(already escaped) CDATA content. -/
def stdCodeMacro (lang content : List Char) : List Char :=
  codeMacroPre ++ lang ++ langClose ++ ptbOpen
    ++ (cdataHead ++ content ++ cdataStop) ++ ptbClose ++ macroClose

theorem findClassLangF_succ (f : Nat) (s : List Char) :
    findClassLangF (f + 1) s =
      match splitFirst classLit s with
      | none => none
      | some (_, post) =>
        match lastQuote (takeLine post) with
        | some cap => some cap
        | none => findClassLangF f post := rfl

/-- The greedy language capture on a well-formed one-block tag whose body
has no `"` on its first line returns exactly the class value. -/
theorem findClassLang_codeTag (lang body : List Char)
    (h3 : '\n' ∉ lang)
    (h6 : '"' ∉ takeLine body) :
    findClassLang (codeTag lang body) = some lang := by
  have hform : codeTag lang body
      = "<pre><".data ++ classLit
        ++ (lang ++ ("\">".data ++ (body ++ closeCode))) := rfl
  have hsplit : splitFirst classLit (codeTag lang body)
      = some ("<pre><".data, lang ++ ("\">".data ++ (body ++ closeCode))) := by
    rw [hform]
    exact splitFirst_exact classLit "<pre><".data _ (by simp [classLit])
      noBorder_classLit (by decide)
  have hquote : '"' ∉ takeLine (body ++ closeCode) := by
    intro hm
    rcases mem_takeLine_append '"' body closeCode hm with hq | hq
    · exact h6 hq
    · exact absurd hq (by decide)
  have hline : takeLine (lang ++ ("\">".data ++ (body ++ closeCode)))
      = lang ++ ('"' :: '>' :: takeLine (body ++ closeCode)) := by
    rw [takeLine_append lang _ h3]
    have : "\">".data ++ (body ++ closeCode)
        = '"' :: '>' :: (body ++ closeCode) := rfl
    rw [this, takeLine_cons _ _ (by decide), takeLine_cons _ _ (by decide)]
  have hlast : lastQuote (lang
      ++ ('"' :: '>' :: takeLine (body ++ closeCode))) = some lang := by
    rw [lastQuote]
    have hrev : (lang ++ ('"' :: '>' :: takeLine (body ++ closeCode))).reverse
        = ('>' :: takeLine (body ++ closeCode)).reverse
          ++ ['"'] ++ lang.reverse := by
      simp
    rw [hrev]
    rw [splitFirst_exact ['"'] _ lang.reverse (by simp)
      (by intro j hj1 hj2; simp at hj2; omega)
      (by
        apply hasSub_of_not_mem
        simp only [List.mem_reverse, List.mem_cons]
        rintro (hq | hq)
        · exact absurd hq.symm (by decide)
        · exact hquote hq)]
    simp
  rw [findClassLang, findClassLangF_succ]
  simp only [hsplit, hline, hlast]

/-- Full symbolic evaluation of `md2conf.py`'s `convert_code_block` on a
single well-formed block with a class attribute. -/
theorem convertCodeBlock_codeTag (lang body : List Char)
    (hgt : '>' ∉ lang) (hnl : '\n' ∉ lang) (hamp : '&' ∉ lang)
    (hcc : hasSub closeCode body = false)
    (hq : '"' ∉ takeLine body) (hbamp : '&' ∉ body) :
    convertCodeBlock (codeTag lang body)
      = some (stdCodeMacro lang (cdataEscape body)) := by
  have h0 : ("<pre><code class=\"".data : List Char)
      = preCode ++ " class=\"".data := rfl
  have hct : codeTag lang body
      = preCode ++ ((" class=\"".data ++ (lang ++ ['"']))
          ++ '>' :: (body ++ closeCode)) := by
    rw [codeTag, h0]
    simp
  have hattrs : '>' ∉ (" class=\"".data ++ (lang ++ ['"'])) := by
    intro hm
    rcases List.mem_append.mp hm with h | h
    · exact absurd h (by decide)
    · rcases List.mem_append.mp h with h' | h'
      · exact hgt h'
      · exact absurd h' (by decide)
  have hfind : findCodeBlocks (codeTag lang body) = [codeTag lang body] := by
    rw [hct]
    exact findCodeBlocks_single _ _ hattrs hcc
  have hclass : findClassLang (codeTag lang body) = some lang :=
    findClassLang_codeTag lang body hnl hq
  have hbody : extractBody (codeTag lang body) = some body := by
    rw [hct]
    exact extractBody_of _ _ hattrs hcc
  have hone : convertOneCode true (codeTag lang body)
      = some (stdCodeMacro lang (cdataEscape body)) := by
    rw [convertOneCode]
    simp only [hclass, hbody]
    have hampAll : '&' ∉ (codeMacroPre ++ lang ++ langClose ++ ptbOpen
        ++ mdCdataBody body ++ ptbClose ++ macroClose) := by
      intro hm
      simp only [mdCdataBody, List.append_assoc, List.mem_append] at hm
      rcases hm with h | h | h | h | h | h | h | h | h
      exacts [absurd h (by decide), hamp h, absurd h (by decide),
        absurd h (by decide), absurd h (by decide),
        not_mem_cdataEscape_amp body hbamp h, absurd h (by decide),
        absurd h (by decide), absurd h (by decide)]
    simp only [if_true]
    rw [entityRev_id _ hampAll]
    simp [stdCodeMacro, mdCdataBody]
  have hne : codeTag lang body ≠ [] := by
    intro h1
    have := congrArg List.length h1
    simp [codeTag] at this
  rw [convertCodeBlock, hfind]
  simp only [convertCodeLoop, hone]
  rw [replaceAll_self _ _ hne]

/-! ### `slug` (`md2conf.py` lines 349-374)

The four substitutions of `slug`: strip `<[^>]+>` tags, strip `&[a-z]+;`
entities, turn spaces into dashes, and drop everything outside
`[a-zA-Z0-9-]`.  Character classes are expressed on code points:
65-90 is `A`-`Z`, 97-122 is `a`-`z`, 48-57 is `0`-`9`. -/

/-- `str.lower()` applied per character.  Core `Char.toLower` lowers
exactly `A`-`Z`; Python additionally lowers some non-ASCII letters, but
every non-ASCII character is removed by the final `[^a-zA-Z0-9-]` filter,
so the difference never reaches the result. -/
def pyLower (s : List Char) : List Char := s.map Char.toLower

/-- The class `[a-z]` of the entity pattern. -/
def isLowAZ (c : Char) : Bool := 97 ≤ c.toNat && c.toNat ≤ 122

/-- The class `[a-zA-Z0-9-]` kept by the final substitution. -/
def isSlugKeep (c : Char) : Bool :=
  (65 ≤ c.toNat && c.toNat ≤ 90) || (97 ≤ c.toNat && c.toNat ≤ 122)
    || (48 ≤ c.toNat && c.toNat ≤ 57) || c = '-'

/-- Scanner for `re.sub(r'<[^>]+>', '', s)`: at `<`, a match needs at
least one non-`>` character and then `>`; otherwise the scan advances. -/
def stripTagsF : Nat → List Char → List Char
  | 0, s => s
  | _ + 1, [] => []
  | f + 1, c :: cs =>
    if c = '<' then
      match splitFirst ['>'] cs with
      | some (a, b) =>
        if a = [] then c :: stripTagsF f cs else stripTagsF f b
      | none => c :: stripTagsF f cs
    else c :: stripTagsF f cs

/-- `re.sub(r'<[^>]+>', '', s)`. -/
def stripTags (s : List Char) : List Char := stripTagsF s.length s

/-- Scanner for `re.sub(r'&[a-z]+;', '', s)`: at `&`, a match needs a
nonempty run of `[a-z]` followed directly by `;`. -/
def stripEntF : Nat → List Char → List Char
  | 0, s => s
  | _ + 1, [] => []
  | f + 1, c :: cs =>
    if c = '&' then
      if cs.takeWhile isLowAZ = [] then c :: stripEntF f cs
      else if leadsWith [';'] (cs.dropWhile isLowAZ) then
        stripEntF f (cs.dropWhile isLowAZ).tail
      else c :: stripEntF f cs
    else c :: stripEntF f cs

/-- `re.sub(r'&[a-z]+;', '', s)`. -/
def stripEnts (s : List Char) : List Char := stripEntF s.length s

/-- `re.sub(r'[ ]', '-', s)`. -/
def spaceDash (s : List Char) : List Char :=
  s.map (fun c => if c = ' ' then '-' else c)

/-- `slug` from `md2conf.py`: optional lower-casing, tag stripping,
entity stripping, spaces to dashes, and the `[^a-zA-Z0-9-]` filter. -/
def slug (s : List Char) (lowercase : Bool) : List Char :=
  ((spaceDash (stripEnts (stripTags
    (if lowercase then pyLower s else s)))).filter isSlugKeep)

theorem toNat_toLower (c : Char) :
    (Char.toLower c).toNat
      = if 65 ≤ c.toNat ∧ c.toNat ≤ 90 then c.toNat + 32 else c.toNat := by
  rw [Char.toLower]
  split
  · rename_i h
    have hvalid : Nat.isValidChar (c.toNat + 32) := by
      left
      have h2 := h.2
      omega
    simp only [Char.ofNat, hvalid, dif_pos]
    show (BitVec.ofNatLt (c.toNat + 32) _).toNat = c.toNat + 32
    simp
  · rfl

theorem mem_stripTagsF (f : Nat) : ∀ s c, c ∈ stripTagsF f s → c ∈ s := by
  induction f with
  | zero => intro s c h; exact h
  | succ f ih =>
    intro s c h
    cases s with
    | nil => exact h
    | cons a cs =>
      by_cases ha : a = '<'
      · subst ha
        rw [stripTagsF, if_pos rfl] at h
        cases hsp : splitFirst ['>'] cs with
        | none =>
          rw [hsp] at h
          rcases List.mem_cons.mp h with h1 | h1
          · exact h1 ▸ List.mem_cons_self ..
          · exact List.mem_cons_of_mem _ (ih cs c h1)
        | some ab =>
          obtain ⟨a', b⟩ := ab
          simp only [hsp] at h
          by_cases ha' : a' = []
          · rw [if_pos ha'] at h
            rcases List.mem_cons.mp h with h1 | h1
            · exact h1 ▸ List.mem_cons_self ..
            · exact List.mem_cons_of_mem _ (ih cs c h1)
          · rw [if_neg ha'] at h
            have hb := ih b c h
            have := splitFirst_sound ['>'] cs a' b hsp
            subst this
            apply List.mem_cons_of_mem
            simp only [List.mem_append]
            right
            exact hb
      · rw [stripTagsF, if_neg ha] at h
        rcases List.mem_cons.mp h with h1 | h1
        · exact h1 ▸ List.mem_cons_self ..
        · exact List.mem_cons_of_mem _ (ih cs c h1)

theorem mem_stripEntF (f : Nat) : ∀ s c, c ∈ stripEntF f s → c ∈ s := by
  induction f with
  | zero => intro s c h; exact h
  | succ f ih =>
    intro s c h
    cases s with
    | nil => exact h
    | cons a cs =>
      by_cases ha : a = '&'
      · subst ha
        rw [stripEntF, if_pos rfl] at h
        by_cases h1 : cs.takeWhile isLowAZ = []
        · rw [if_pos h1] at h
          rcases List.mem_cons.mp h with h2 | h2
          · exact h2 ▸ List.mem_cons_self ..
          · exact List.mem_cons_of_mem _ (ih cs c h2)
        · rw [if_neg h1] at h
          by_cases h2 : leadsWith [';'] (cs.dropWhile isLowAZ) = true
          · rw [if_pos h2] at h
            have h3 := ih _ c h
            have h4 : c ∈ cs.dropWhile isLowAZ :=
              (List.tail_sublist _).mem h3
            exact List.mem_cons_of_mem _ ((List.dropWhile_sublist _).mem h4)
          · rw [if_neg h2] at h
            rcases List.mem_cons.mp h with h3 | h3
            · exact h3 ▸ List.mem_cons_self ..
            · exact List.mem_cons_of_mem _ (ih cs c h3)
      · rw [stripEntF, if_neg ha] at h
        rcases List.mem_cons.mp h with h1 | h1
        · exact h1 ▸ List.mem_cons_self ..
        · exact List.mem_cons_of_mem _ (ih cs c h1)

theorem stripTagsF_id (f : Nat) : ∀ s, '<' ∉ s → stripTagsF f s = s := by
  induction f with
  | zero => intro s _; rfl
  | succ f ih =>
    intro s hs
    cases s with
    | nil => rfl
    | cons a cs =>
      have ha : ¬ (a = '<') := fun h => hs (h ▸ List.mem_cons_self ..)
      rw [stripTagsF, if_neg ha, ih cs (fun h => hs (List.mem_cons_of_mem _ h))]

theorem stripEntF_id (f : Nat) : ∀ s, '&' ∉ s → stripEntF f s = s := by
  induction f with
  | zero => intro s _; rfl
  | succ f ih =>
    intro s hs
    cases s with
    | nil => rfl
    | cons a cs =>
      have ha : ¬ (a = '&') := fun h => hs (h ▸ List.mem_cons_self ..)
      rw [stripEntF, if_neg ha, ih cs (fun h => hs (List.mem_cons_of_mem _ h))]

theorem spaceDash_id (s : List Char) (h : ' ' ∉ s) : spaceDash s = s := by
  rw [spaceDash]
  rw [List.map_congr_left (g := id)]
  · exact List.map_id s
  · intro a ha
    simp only [id]
    exact if_neg (fun (h1 : a = ' ') => h (h1 ▸ ha))

theorem mem_spaceDash (s : List Char) (c : Char) (h : c ∈ spaceDash s) :
    c ∈ s ∨ c = '-' := by
  rw [spaceDash] at h
  obtain ⟨a, ha, hfa⟩ := List.mem_map.mp h
  by_cases h1 : a = ' '
  · rw [if_pos h1] at hfa
    exact Or.inr hfa.symm
  · rw [if_neg h1] at hfa
    exact Or.inl (hfa ▸ ha)

theorem toLower_eq_self (c : Char) (h : ¬ (65 ≤ c.toNat ∧ c.toNat ≤ 90)) :
    Char.toLower c = c := by
  rw [Char.toLower]
  exact if_neg (fun hc => h ⟨hc.1, hc.2⟩)

theorem pyLower_no_upper (s : List Char) (c : Char) (h : c ∈ pyLower s) :
    ¬ (65 ≤ c.toNat ∧ c.toNat ≤ 90) := by
  rw [pyLower] at h
  obtain ⟨a, _, hfa⟩ := List.mem_map.mp h
  have := toNat_toLower a
  rw [hfa] at this
  split at this <;> omega

theorem pyLower_id (s : List Char)
    (h : ∀ c ∈ s, ¬ (65 ≤ c.toNat ∧ c.toNat ≤ 90)) : pyLower s = s := by
  rw [pyLower, List.map_congr_left (g := id)]
  · exact List.map_id s
  · intro a ha
    exact toLower_eq_self a (h a ha)

theorem slug_charset (H : List Char) : ∀ c ∈ slug H true,
    (97 ≤ c.toNat ∧ c.toNat ≤ 122) ∨ (48 ≤ c.toNat ∧ c.toNat ≤ 57)
      ∨ c = '-' := by
  intro c hc
  rw [slug, if_pos rfl] at hc
  have hk := (List.mem_filter.mp hc).2
  have hmem := (List.mem_filter.mp hc).1
  simp only [isSlugKeep, Bool.or_eq_true, Bool.and_eq_true,
    decide_eq_true_eq] at hk
  rcases mem_spaceDash _ c hmem with h1 | h1
  · rw [stripEnts] at h1
    have h2 := mem_stripEntF _ _ c h1
    rw [stripTags] at h2
    have h3 := mem_stripTagsF _ _ c h2
    have h4 := pyLower_no_upper H c h3
    rcases hk with ((hk | hk) | hk) | hk
    · exact absurd hk h4
    · exact Or.inl hk
    · exact Or.inr (Or.inl hk)
    · exact Or.inr (Or.inr hk)
  · exact Or.inr (Or.inr h1)

theorem slug_idem (H : List Char) : slug (slug H true) true = slug H true := by
  have hchar := slug_charset H
  have hnot : ∀ d : Char,
      ¬ ((97 ≤ d.toNat ∧ d.toNat ≤ 122) ∨ (48 ≤ d.toNat ∧ d.toNat ≤ 57)
        ∨ d = '-') → d ∉ slug H true :=
    fun d hd hmem => hd (hchar d hmem)
  have hlow : pyLower (slug H true) = slug H true := by
    apply pyLower_id
    intro c hc
    rcases hchar c hc with h | h | h
    · omega
    · omega
    · subst h
      decide
  have htags : stripTags (slug H true) = slug H true := by
    rw [stripTags]
    exact stripTagsF_id _ _ (hnot '<' (by decide))
  have hents : stripEnts (slug H true) = slug H true := by
    rw [stripEnts]
    exact stripEntF_id _ _ (hnot '&' (by decide))
  have hsp : spaceDash (slug H true) = slug H true :=
    spaceDash_id _ (hnot ' ' (by decide))
  have hfil : (slug H true).filter isSlugKeep = slug H true := by
    apply List.filter_eq_self.mpr
    intro c hc
    simp only [isSlugKeep, Bool.or_eq_true, Bool.and_eq_true,
      decide_eq_true_eq]
    rcases hchar c hc with h | h | h
    · exact Or.inl (Or.inl (Or.inr h))
    · exact Or.inl (Or.inr h)
    · exact Or.inr h
  conv_lhs => rw [slug, if_pos rfl, hlow, htags, hents, hsp, hfil]

/-! ### `convert_info_macros`, `strip_type`, `upper_chars`
(`md2conf.py` lines 250-346)

The eight stripping substitutions of `strip_type` pass `re.IGNORECASE`
(which equals 2) as the positional `count` argument of `re.sub`, not as
`flags`; they are therefore case-sensitive and limited to two
replacements each.  This is embedded exactly: `subTwo` performs at most
two case-sensitive replacements.  The classification searches pass the
flag in the correct position and are case-insensitive.

Matchers embed one pattern each at the current position; `<.*?>` takes
the lazy (first) `>` on the same line.  `none` from `stripTypeF` embeds
the `AttributeError` raised by `string_start.end()` when no tag remains
after stripping. -/

/-- `<p><ac:structured-macro ac:name="info"><ac:rich-text-body><p>`. -/
def infoTag : List Char :=
  "<p><ac:structured-macro ac:name=\"info\"><ac:rich-text-body><p>".data

/-- `info_tag.replace('info', 'note')`. -/
def noteTag : List Char := replaceAll "info".data "note".data infoTag

/-- `info_tag.replace('info', 'warning')`. -/
def warningTag : List Char := replaceAll "info".data "warning".data infoTag

/-- `</p></ac:rich-text-body></ac:structured-macro></p>`. -/
def closeTag : List Char :=
  "</p></ac:rich-text-body></ac:structured-macro></p>".data

/-- The six custom-marker replacements at the top of
`convert_info_macros`. -/
def markerSubs (html : List Char) : List Char :=
  replaceAll "%~</p>".data closeTag
    (replaceAll "<p>~%".data warningTag
      (replaceAll "!~</p>".data closeTag
        (replaceAll "<p>~!".data noteTag
          (replaceAll "?~</p>".data closeTag
            (replaceAll "<p>~?".data infoTag html)))))

/-- Literal `<blockquote>`. -/
def bqOpen : List Char := "<blockquote>".data

/-- Literal `</blockquote>`. -/
def bqClose : List Char := "</blockquote>".data

/-- Scanner for `re.findall('<blockquote>(.*?)</blockquote>', html,
re.DOTALL)`. -/
def findQuotesF : Nat → List Char → List (List Char)
  | 0, _ => []
  | f + 1, s =>
    if leadsWith bqOpen s then
      match splitFirst bqClose (s.drop 12) with
      | some (q, r2) => q :: findQuotesF f r2
      | none => findQuotesF f s.tail
    else findQuotesF f s.tail

/-- `re.findall` of the blockquote pattern. -/
def findQuotes (s : List Char) : List (List Char) :=
  findQuotesF (s.length + 1) s

/-- Case-insensitive match of the (lowercase) word `w` at the start of
`s`, as `re.IGNORECASE` compares it. -/
def icMatch (w s : List Char) : Bool :=
  (s.take w.length).map Char.toLower == w

/-- Scan the first line of `s` for a `>` followed by the word `w`
(case-insensitively): the `<.*>w` part of `re.search('^<.*>w', s,
re.IGNORECASE)` after the leading `<`. -/
def gtWordScan (w : List Char) : List Char → Bool
  | [] => false
  | c :: cs =>
    if c = '\n' then false
    else if c = '>' then
      if icMatch w cs then true else gtWordScan w cs
    else gtWordScan w cs

/-- `re.search('^<.*>w', quote.strip(), re.IGNORECASE)` viewed as a
Boolean: the stripped quote starts with `<` and its first line has a `>`
followed by the word. -/
def classifyQuote (w q : List Char) : Bool :=
  if leadsWith ['<'] (pyStrip q) then gtWordScan w (pyStrip q).tail
  else false

/-- Matcher combinator: literal text. -/
def mLit (lit s : List Char) : Option (List Char) :=
  if leadsWith lit s then some (s.drop lit.length) else none

/-- Matcher for one `\s` character. -/
def mWs : List Char → Option (List Char)
  | [] => none
  | c :: cs => if isPyWs c then some cs else none

/-- Matcher for `<.*?>` without `re.DOTALL`: `<`, then lazily up to the
first `>` with no newline in between. -/
def mLazyTag : List Char → Option (List Char)
  | [] => none
  | c :: cs =>
    if c = '<' then
      match splitFirst ['>'] cs with
      | some (a, b) => if '\n' ∈ a then none else some b
      | none => none
    else none

/-- Matcher sequencing. -/
def mSeq (m1 m2 : List Char → Option (List Char)) (s : List Char) :
    Option (List Char) :=
  match m1 s with
  | some r => m2 r
  | none => none

/-- Matcher for `<(em|strong)>`. -/
def mEmStrong (s : List Char) : Option (List Char) :=
  match mLit "<em>".data s with
  | some r => some r
  | none => mLit "<strong>".data s

/-- At most `n` leftmost replacements of matcher `m` by the empty string
(the body of `re.sub(pattern, '', s, count)`). -/
def subFuel (m : List Char → Option (List Char)) :
    Nat → Nat → List Char → List Char
  | _, 0, s => s
  | 0, _, s => s
  | f + 1, n + 1, s =>
    match s with
    | [] => []
    | c :: cs =>
      match m (c :: cs) with
      | some r => subFuel m f n r
      | none => c :: subFuel m f (n + 1) cs

/-- `re.sub(pattern, '', s, re.IGNORECASE)`: `re.IGNORECASE` is `2` and
lands in the `count` parameter, so this is two case-sensitive
replacements. -/
def subTwo (m : List Char → Option (List Char)) (s : List Char) :
    List Char :=
  subFuel m s.length 2 s

/-- Pattern 1, `w:\s`. -/
def pat1 (w : List Char) : List Char → Option (List Char) :=
  mSeq (mLit (w ++ ":".data)) mWs

/-- Pattern 2, `w\s:\s`. -/
def pat2 (w : List Char) : List Char → Option (List Char) :=
  mSeq (mLit w) (mSeq mWs (mSeq (mLit ":".data) mWs))

/-- Pattern 3, `<.*?>w:\s<.*?>`. -/
def pat3 (w : List Char) : List Char → Option (List Char) :=
  mSeq mLazyTag (mSeq (mLit (w ++ ":".data)) (mSeq mWs mLazyTag))

/-- Pattern 4, `<.*?>w\s:\s<.*?>`. -/
def pat4 (w : List Char) : List Char → Option (List Char) :=
  mSeq mLazyTag
    (mSeq (mLit w) (mSeq mWs (mSeq (mLit ":".data) (mSeq mWs mLazyTag))))

/-- Pattern 5, `<(em|strong)>w:<.*?>\s`. -/
def pat5 (w : List Char) : List Char → Option (List Char) :=
  mSeq mEmStrong (mSeq (mLit (w ++ ":".data)) (mSeq mLazyTag mWs))

/-- Pattern 6, `<(em|strong)>w\s:<.*?>\s`. -/
def pat6 (w : List Char) : List Char → Option (List Char) :=
  mSeq mEmStrong
    (mSeq (mLit w) (mSeq mWs (mSeq (mLit ":".data) (mSeq mLazyTag mWs))))

/-- Pattern 7, `<(em|strong)>w<.*?>:\s`. -/
def pat7 (w : List Char) : List Char → Option (List Char) :=
  mSeq mEmStrong
    (mSeq (mLit w) (mSeq mLazyTag (mSeq (mLit ":".data) mWs)))

/-- Pattern 8, `<(em|strong)>w\s<.*?>:\s`. -/
def pat8 (w : List Char) : List Char → Option (List Char) :=
  mSeq mEmStrong
    (mSeq (mLit w) (mSeq mWs (mSeq mLazyTag (mSeq (mLit ":".data) mWs))))

/-- Accumulating scanner for `re.search('<.*?>', s).end()`: the index
just past the first same-line tag. -/
def firstTagEndA : Nat → List Char → Option Nat
  | _, [] => none
  | acc, c :: cs =>
    if c = '<' then
      match splitFirst ['>'] cs with
      | some (a, _) =>
        if '\n' ∈ a then firstTagEndA (acc + 1) cs
        else some (acc + 1 + a.length + 1)
      | none => firstTagEndA (acc + 1) cs
    else firstTagEndA (acc + 1) cs

/-- `re.search('<.*?>', s).end()` as an optional index. -/
def firstTagEnd (s : List Char) : Option Nat := firstTagEndA 0 s

/-- `upper_chars(s, [i])`: uppercase the character at index `i`. -/
def upperAt (i : Nat) (s : List Char) : List Char :=
  s.mapIdx (fun j c => if j = i then Char.toUpper c else c)

/-- `strip_type(tag, tagtype)` with the case-sensitive count-limited
substitutions; `none` embeds the final `AttributeError` when no tag
remains. -/
def stripTypeF (w q : List Char) : Option (List Char) :=
  let t1 := subTwo (pat1 w) (pyStrip q)
  let t2 := subTwo (pat2 w) (pyStrip t1)
  let t3 := subTwo (pat3 w) t2
  let t4 := subTwo (pat4 w) t3
  let t5 := subTwo (pat5 w) t4
  let t6 := subTwo (pat6 w) t5
  let t7 := subTwo (pat7 w) t6
  let t8 := subTwo (pat8 w) t7
  match firstTagEnd t8 with
  | none => none
  | some e => some (upperAt e t8)

/-- The macro text one blockquote is replaced with (the three branches of
the `for quote in quotes` loop). -/
def quoteMacro (q : List Char) : Option (List Char) :=
  if classifyQuote "note".data q then
    match stripTypeF "Note".data q with
    | none => none
    | some ct => some (pyStrip (replaceAll "</p>".data closeTag
        (replaceAll "<p>".data noteTag ct)))
  else if classifyQuote "warning".data q then
    match stripTypeF "Warning".data q with
    | none => none
    | some ct => some (pyStrip (replaceAll "</p>".data closeTag
        (replaceAll "<p>".data warningTag ct)))
  else some (pyStrip (replaceAll "</p>".data closeTag
      (replaceAll "<p>".data infoTag q)))

/-- The `for quote in quotes` loop of `convert_info_macros`. -/
def quotesLoop : List (List Char) → List Char → Option (List Char)
  | [], html => some html
  | q :: rest, html =>
    match quoteMacro q with
    | none => none
    | some mt => quotesLoop rest (replaceAll (bqOpen ++ q ++ bqClose) mt html)

/-- The fixed `toc_tag` literal of `convert_doctoc`, including its
indentation. -/
def docTocTag : List Char :=
  ("<p>\n    <ac:structured-macro ac:name=\"toc\">\n"
    ++ "      <ac:parameter ac:name=\"printable\">true</ac:parameter>\n"
    ++ "      <ac:parameter ac:name=\"style\">disc</ac:parameter>\n"
    ++ "      <ac:parameter ac:name=\"maxLevel\">7</ac:parameter>\n"
    ++ "      <ac:parameter ac:name=\"minLevel\">1</ac:parameter>\n"
    ++ "      <ac:parameter ac:name=\"type\">list</ac:parameter>\n"
    ++ "      <ac:parameter ac:name=\"outline\">clear</ac:parameter>\n"
    ++ "      <ac:parameter ac:name=\"include\">.*</ac:parameter>\n"
    ++ "    </ac:structured-macro>\n    </p>").data

/-- Split at the last occurrence of `pat` (first occurrence in the
reversed string). -/
def splitLast (pat s : List Char) : Option (List Char × List Char) :=
  match splitFirst pat.reverse s.reverse with
  | none => none
  | some p => some (p.2.reverse, p.1.reverse)

/-- `convert_doctoc`: the greedy `re.sub` replaces from the first
`<!-- START doctoc` to the last `END doctoc -->` when both exist. -/
def convertDocToc (html : List Char) : List Char :=
  match splitFirst "<!-- START doctoc".data html with
  | none => html
  | some (pre, rest) =>
    match splitLast "END doctoc -->".data rest with
    | none => html
    | some p => pre ++ docTocTag ++ p.2

/-- `convert_info_macros` of `md2conf.py`: marker substitutions, the
blockquote loop, then `convert_doctoc`. -/
def convertInfoMacros (html : List Char) : Option (List Char) :=
  match quotesLoop (findQuotes (markerSubs html)) (markerSubs html) with
  | none => none
  | some h2 => some (convertDocToc h2)

/-! ### `process_refs` (`md2conf.py` lines 377-403 and
`md_to_conf/__init__.py` lines 431-456, identical) -/

/-- One match of `re.findall('\n(\[\^(\d)\].*)|<p>(\[\^(\d)\].*)', html)`:
which alternative fired, the captured `\[\^(\d)\].*` group, and the
captured digit. -/
structure RefMatch where
  alt1 : Bool
  line : List Char
  d : Char
deriving DecidableEq

/-- Match `\[\^(\d)\].*` at the start of `s`: a single digit between
`[^` and `]`, then the rest of the line; returns the digit, the captured
group and the text after the line. -/
def refBody : List Char → Option (Char × List Char × List Char)
  | c1 :: c2 :: d :: c4 :: rest =>
    if c1 = '[' ∧ c2 = '^' ∧ d.isDigit = true ∧ c4 = ']' then
      some (d, c1 :: c2 :: d :: c4 :: takeLine rest, dropLine rest)
    else none
  | _ => none

/-- Scanner for the footnote findall: alternative 1 after a newline,
alternative 2 after `<p>`; scanning resumes at the end of the captured
line. -/
def findRefsF : Nat → List Char → List RefMatch
  | 0, _ => []
  | f + 1, s =>
    if leadsWith ['\n'] s then
      match refBody s.tail with
      | some p => ⟨true, p.2.1, p.1⟩ :: findRefsF f p.2.2
      | none => findRefsF f s.tail
    else if leadsWith "<p>".data s then
      match refBody (s.drop 3) with
      | some p => ⟨false, p.2.1, p.1⟩ :: findRefsF f p.2.2
      | none => findRefsF f s.tail
    else findRefsF f s.tail

/-- `re.findall` of the footnote pattern. -/
def findRefs (s : List Char) : List RefMatch :=
  findRefsF (s.length + 1) s

/-- `.replace('</p>', '').replace('<p>', '')` as applied to a captured
reference. -/
def pStripRefs (x : List Char) : List Char :=
  replaceAll "<p>".data [] (replaceAll "</p>".data [] x)

/-- Scanner for `re.search('href="(.*?)"', s)`: first `href="` with a
closing `"` on the same line; the lazy group stops at the first `"`. -/
def hrefOfF : Nat → List Char → Option (List Char)
  | 0, _ => none
  | f + 1, s =>
    match splitFirst "href=\"".data s with
    | none => none
    | some (_, post) =>
      match splitFirst ['"'] post with
      | some (h, _) => if '\n' ∈ h then hrefOfF f post else some h
      | none => hrefOfF f post

/-- `re.search('href="(.*?)"', s).group(1)` as an option. -/
def hrefOf (s : List Char) : Option (List Char) :=
  hrefOfF (s.length + 1) s

/-- The `for ref in refs` loop of `process_refs`; `none` embeds the
`AttributeError` when a matched definition has no `href="..."`. -/
def refsLoop : List RefMatch → List Char → Option (List Char)
  | [], html => some html
  | r :: rest, html =>
    let fr := pStripRefs (if r.alt1 then pStripRefs r.line else r.line)
    let html1 := replaceAll fr [] html
    match hrefOf fr with
    | none => none
    | some h =>
      refsLoop rest (replaceAll ("[^".data ++ [r.d] ++ "]".data)
        ("<a id=\"test\" href=\"".data ++ h ++ "\"><sup>".data
          ++ [r.d] ++ "</sup></a>".data) html1)

/-- `process_refs` of `md2conf.py`. -/
def processRefs (html : List Char) : Option (List Char) :=
  refsLoop (findRefs html) html

/-! ### `add_local_refs` (`md2conf.py` lines 545-631) and the package
variant (`md_to_conf/__init__.py` lines 535-627) -/

/-- Match `<h\d+>` at the start of `s`: at least one digit between `<h`
and `>`; returns the remainder after `>`. -/
def hOpenAt (s : List Char) : Option (List Char) :=
  if leadsWith "<h".data s then
    if (s.drop 2).takeWhile Char.isDigit = [] then none
    else if leadsWith ['>'] ((s.drop 2).dropWhile Char.isDigit) then
      some ((s.drop 2).dropWhile Char.isDigit).tail
    else none
  else none

/-- Match `</h\d+>` at the start of `s`; returns the remainder. -/
def hCloseAt (s : List Char) : Option (List Char) :=
  if leadsWith "</h".data s then
    if (s.drop 3).takeWhile Char.isDigit = [] then none
    else if leadsWith ['>'] ((s.drop 3).dropWhile Char.isDigit) then
      some ((s.drop 3).dropWhile Char.isDigit).tail
    else none
  else none

/-- Scan for the lazy `(.*?)</h\d+>` part of the heading pattern:
content up to the first closing heading tag. -/
def hCloseScan : List Char → Option (List Char × List Char)
  | [] => none
  | c :: cs =>
    match hCloseAt (c :: cs) with
    | some rest => some ([], rest)
    | none => (hCloseScan cs).map (fun p => (c :: p.1, p.2))

/-- Scanner for `re.findall(r'<h\d+>(.*?)</h\d+>', html, re.DOTALL)`. -/
def findHeadersF : Nat → List Char → List (List Char)
  | 0, _ => []
  | f + 1, s =>
    match hOpenAt s with
    | some rest =>
      match hCloseScan rest with
      | some p => p.1 :: findHeadersF f p.2
      | none => findHeadersF f s.tail
    | none => findHeadersF f s.tail

/-- `re.findall` of the heading pattern. -/
def findHeaders (s : List Char) : List (List Char) :=
  findHeadersF (s.length + 1) s

/-- One match of `re.findall(r'<a href="#.+?">.+?</a>', html)` together
with the groups re-extracted by the loop
(`re.search(r'<a href="(#.+?)">(.+?)</a>', link)`). -/
structure LinkMatch where
  whole : List Char
  ref : List Char
  alt : List Char
  after : List Char
deriving DecidableEq

/-- Split at the first occurrence of `pat` starting at position 1 or
later (the lazy `.+?` needs at least one character). -/
def splitFirstPos1 (pat : List Char) : List Char → Option (List Char × List Char)
  | [] => none
  | c :: cs => (splitFirst pat cs).map (fun p => (c :: p.1, p.2))

/-- Match the link pattern at the start of `s`.  The lazy `.+?` parts
stop at the first `">` and `</a>` and cannot cross a newline. -/
def linkAt (s : List Char) : Option LinkMatch :=
  if leadsWith "<a href=\"#".data s then
    match splitFirstPos1 "\">".data (s.drop 10) with
    | none => none
    | some p =>
      if '\n' ∈ p.1 then none
      else match splitFirstPos1 "</a>".data p.2 with
        | none => none
        | some p2 =>
          if '\n' ∈ p2.1 then none
          else some ⟨"<a href=\"#".data ++ p.1 ++ "\">".data ++ p2.1
              ++ "</a>".data, '#' :: p.1, p2.1, p2.2⟩
  else none

/-- Scanner for the link findall. -/
def findLinksF : Nat → List Char → List LinkMatch
  | 0, _ => []
  | f + 1, s =>
    match linkAt s with
    | some lm => lm :: findLinksF f lm.after
    | none => findLinksF f s.tail

/-- `re.findall` of the link pattern. -/
def findLinks (s : List Char) : List LinkMatch :=
  findLinksF (s.length + 1) s

/-- Python `dict` lookup on an insertion-ordered association list. -/
def alGet (k : List Char) : List (List Char × List Char) → Option (List Char)
  | [] => none
  | p :: rest => if p.1 = k then some p.2 else alGet k rest

/-- Python `dict` assignment. -/
def alPut (k v : List Char) (m : List (List Char × List Char)) :
    List (List Char × List Char) :=
  if (alGet k m).isSome then
    m.map (fun p => if p.1 = k then (k, v) else p)
  else m ++ [(k, v)]

/-- Lookup in the `headers_count` dictionary. -/
def alGetN (k : List Char) : List (List Char × Nat) → Option Nat
  | [] => none
  | p :: rest => if p.1 = k then some p.2 else alGetN k rest

/-- Assignment in the `headers_count` dictionary. -/
def alPutN (k : List Char) (n : Nat) (m : List (List Char × Nat)) :
    List (List Char × Nat) :=
  if (alGetN k m).isSome then
    m.map (fun p => if p.1 = k then (k, n) else p)
  else m ++ [(k, n)]

/-- Scanner for `re.sub(r'(<.+?>|[ ])', '', header)` (the version-1
anchor value). -/
def stripTagsSpacesF : Nat → List Char → List Char
  | 0, s => s
  | _ + 1, [] => []
  | f + 1, c :: cs =>
    if c = ' ' then stripTagsSpacesF f cs
    else if c = '<' then
      match splitFirst ['>'] cs with
      | some p =>
        if p.1 = [] ∨ '\n' ∈ p.1 then c :: stripTagsSpacesF f cs
        else stripTagsSpacesF f p.2
      | none => c :: stripTagsSpacesF f cs
    else c :: stripTagsSpacesF f cs

/-- `re.sub(r'(<.+?>|[ ])', '', header)`. -/
def stripTagsSpaces (s : List Char) : List Char :=
  stripTagsSpacesF s.length s

/-- The anchor value for one heading: `re.sub(r'(<.+?>|[ ])', '',
header)` under version 1, `slug(header, False)` under version 2, and a
`NameError` (no branch assigns `value`) otherwise. -/
def headerValue (version : Nat) (header : List Char) : Option (List Char) :=
  if version = 1 then some (stripTagsSpaces header)
  else if version = 2 then some (slug header false)
  else none

/-- The `for header in headers` loop building `headers_map` and
`headers_count`; `none` embeds the `NameError`/`KeyError` paths. -/
def buildHMLoop (version : Nat) (refPre : List Char) :
    List (List Char) → List (List Char × List Char) → List (List Char × Nat)
      → Option (List (List Char × List Char) × List (List Char × Nat))
  | [], m, cnt => some (m, cnt)
  | h :: rest, m, cnt =>
    match headerValue version h with
    | none => none
    | some value =>
      let key := refPre ++ slug h true
      if (alGet key m).isSome then
        match alGetN key cnt with
        | none => none
        | some n =>
          buildHMLoop version refPre rest
            (alPut (key ++ '_' :: (Nat.repr n).data)
              (value ++ '.' :: (Nat.repr n).data) m)
            (alPutN key (n + 1) cnt)
      else
        buildHMLoop version refPre rest (alPut key value m) (alPutN key 1 cnt)

/-- `headers_map` and `headers_count` for a heading list. -/
def buildHM (version : Nat) (refPre : List Char) (headers : List (List Char)) :
    Option (List (List Char × List Char) × List (List Char × Nat)) :=
  buildHMLoop version refPre headers [] []

/-- `' '.join`-style splitting: Python `str.split()` with no argument. -/
def pySplitF : Nat → List Char → List (List Char)
  | 0, _ => []
  | f + 1, s =>
    if s.dropWhile isPyWs = [] then []
    else ((s.dropWhile isPyWs).takeWhile (fun c => ¬ (isPyWs c = true)))
      :: pySplitF f ((s.dropWhile isPyWs).dropWhile
          (fun c => ¬ (isPyWs c = true)))

/-- Python `title.split()`. -/
def pySplit (s : List Char) : List (List Char) :=
  pySplitF (s.length + 1) s

/-- `'+'.join(title.split())`. -/
def plusJoin (title : List Char) : List Char :=
  List.intercalate ['+'] (pySplit title)

/-- `re.sub(r'( *<.+?> *)', ' ', alt)`: one match at the current
position, or `none`. -/
def spacedTagAt (s : List Char) : Option (List Char) :=
  if leadsWith ['<'] (s.dropWhile (fun c => c = ' ')) then
    match splitFirst ['>'] (s.dropWhile (fun c => c = ' ')).tail with
    | some p =>
      if p.1 = [] ∨ '\n' ∈ p.1 then none
      else some (p.2.dropWhile (fun c => c = ' '))
    | none => none
  else none

/-- Scanner for `re.sub(r'( *<.+?> *)', ' ', alt)`. -/
def spacedTagSubF : Nat → List Char → List Char
  | 0, s => s
  | _ + 1, [] => []
  | f + 1, c :: cs =>
    match spacedTagAt (c :: cs) with
    | some r => ' ' :: spacedTagSubF f r
    | none => c :: spacedTagSubF f cs

/-- `re.sub(r'( *<.+?> *)', ' ', alt)` from the version-1 replacement. -/
def spacedTagSub (s : List Char) : List Char :=
  spacedTagSubF s.length s

/-- The replacement built for one matched local link (`VERSION == 1` and
`VERSION == 2` branches; any other version leaves `replacement` unbound,
a `NameError`). -/
def linkReplacement (version : Nat) (api spaceKey pageId title rr alt :
    List Char) : Option (List Char) :=
  if version = 1 then
    some ("<ac:link ac:anchor=\"".data ++ rr
      ++ "\"><ac:plain-text-link-body><![CDATA[".data ++ spacedTagSub alt
      ++ "]]></ac:plain-text-link-body></ac:link>".data)
  else if version = 2 then
    some ("<a href=\"".data ++ (api ++ "/spaces/".data ++ spaceKey
        ++ "/pages/".data ++ pageId ++ "/".data ++ plusJoin title
        ++ "#".data ++ rr)
      ++ "\" title=\"".data ++ alt ++ "\">".data ++ alt ++ "</a>".data)
  else none

/-- The `for link in links` loop of `md2conf.py`'s `add_local_refs`:
a reference absent from `headers_map` is `sys.exit(1)`, embedded as
`none`; an empty (falsy) `result_ref` skips the link. -/
def linksLoop (version : Nat) (api spaceKey pageId title : List Char)
    (hm : List (List Char × List Char)) :
    List LinkMatch → List Char → Option (List Char)
  | [], html => some html
  | lm :: rest, html =>
    match alGet lm.ref hm with
    | none => none
    | some rr =>
      if rr = [] then linksLoop version api spaceKey pageId title hm rest html
      else
        match linkReplacement version api spaceKey pageId title rr lm.alt with
        | none => none
        | some repl =>
          linksLoop version api spaceKey pageId title hm rest
            (replaceAll lm.whole repl html)

/-- `add_local_refs` of `md2conf.py`. -/
def addLocalRefs (version : Nat) (mdSource api spaceKey pageId title
    html : List Char) : Option (List Char) :=
  if mdSource = "default".data ∨ mdSource = "bitbucket".data then
    match findHeaders html with
    | [] => some html
    | h :: hs =>
      match buildHM version
          (if mdSource = "bitbucket".data then "#markdown-header-".data
           else "#".data) (h :: hs) with
      | none => none
      | some p =>
        linksLoop version api spaceKey pageId title p.1 (findLinks html) html
  else some html

/-- The `for link in links` loop of the `md_to_conf` package variant:
`result_ref = headers_map.get(ref)` is `None` for an unmatched reference
and the falsy check skips the link instead of exiting. -/
def pkgLinksLoop (version : Nat) (api spaceId pageId title : List Char)
    (hm : List (List Char × List Char)) :
    List LinkMatch → List Char → Option (List Char)
  | [], html => some html
  | lm :: rest, html =>
    match alGet lm.ref hm with
    | none => pkgLinksLoop version api spaceId pageId title hm rest html
    | some rr =>
      if rr = [] then pkgLinksLoop version api spaceId pageId title hm rest html
      else
        match linkReplacement version api spaceId pageId title rr lm.alt with
        | none => none
        | some repl =>
          pkgLinksLoop version api spaceId pageId title hm rest
            (replaceAll lm.whole repl html)

/-- `add_local_refs` of `md_to_conf/__init__.py` (its `base_uri` uses the
numeric space id in place of the space key). -/
def pkgAddLocalRefs (version : Nat) (mdSource api spaceId pageId title
    html : List Char) : Option (List Char) :=
  if mdSource = "default".data ∨ mdSource = "bitbucket".data then
    match findHeaders html with
    | [] => some html
    | h :: hs =>
      match buildHM version
          (if mdSource = "bitbucket".data then "#markdown-header-".data
           else "#".data) (h :: hs) with
      | none => none
      | some p =>
        pkgLinksLoop version api spaceId pageId title p.1 (findLinks html) html
  else some html

/-! ### `get_page` (`md2conf.py` lines 406-478,
`md_to_conf/client.py` lines 200-242) and the create-vs-update branch of
`main` (`md2conf.py` lines 1040-1069) -/

/-- The fields of one entry of the `results` array of the page query
response that `get_page` reads. -/
structure PageRec where
  rid : List Char
  versionNum : Nat
  webui : List Char
  props : List (List Char × List Char)

/-- The `PageInfo` namedtuple built by `get_page`. -/
structure PageInfoM where
  pid : List Char
  ver : Nat
  link : List Char
  props : List (List Char × List Char)

/-- What `get_page` returns after a successful query: the `PageInfo`
namedtuple when `results` is nonempty, and the Python boolean `False`
otherwise. -/
inductive GetPageResult where
  | page (p : PageInfoM)
  | boolFalse

/-- The tail of `get_page` after a successful query (`md2conf.py` lines
462-478): a nonempty `results` array yields the namedtuple built from
its first entry; an empty one returns `False`. -/
def getPageOf (api : List Char) (results : List PageRec) : GetPageResult :=
  match results with
  | [] => GetPageResult.boolFalse
  | r :: _ => GetPageResult.page ⟨r.rid, r.versionNum, api ++ r.webui, r.props⟩

/-- Python truthiness of the `get_page` result: a namedtuple is truthy,
`False` is falsy. -/
def pageTruthy : GetPageResult → Bool
  | GetPageResult.page _ => true
  | GetPageResult.boolFalse => false

/-- The action `main` takes on the `get_page` result. -/
inductive MainAction where
  | createPage
  | updatePage
  | deleteAndExit

/-- The branching of `main` (`md2conf.py` lines 1043-1069): with the
delete flag and a truthy page, delete and exit; otherwise `if page:`
updates and the `False` result creates. -/
def mainBranch (deleteFlag : Bool) (pr : GetPageResult) : MainAction :=
  if deleteFlag && pageTruthy pr then MainAction.deleteAndExit
  else
    match pr with
    | GetPageResult.page _ => MainAction.updatePage
    | GetPageResult.boolFalse => MainAction.createPage

/-! ## Supporting lemmas for the claims -/

set_option maxRecDepth 10000

/-- A character that is not a digit is `==`-distinct from any digit. -/
theorem digit_beq_false (x d : Char) (hx : x.isDigit = false)
    (hd : d.isDigit = true) : (x == d) = false := by
  simp only [beq_eq_false_iff_ne]
  intro h
  rw [h, hd] at hx
  simp at hx

/-- When some found link's reference is absent from `headers_map`, the
link loop of `md2conf.py`'s `add_local_refs` reaches `sys.exit(1)`. -/
theorem linksLoop_abort (version : Nat) (api spaceKey pageId title : List Char)
    (hm : List (List Char × List Char)) :
    ∀ (links : List LinkMatch) (html : List Char),
      (∃ lm ∈ links, alGet lm.ref hm = none) →
      linksLoop version api spaceKey pageId title hm links html = none := by
  intro links
  induction links with
  | nil =>
    intro html hex
    rcases hex with ⟨lm, hmem, _⟩
    cases hmem
  | cons l rest ih =>
    intro html hex
    rcases hex with ⟨lm, hmem, hget⟩
    rcases List.mem_cons.mp hmem with heq | hmem'
    · subst heq
      simp only [linksLoop, hget]
    · cases halg : alGet l.ref hm with
      | none => simp only [linksLoop, halg]
      | some rr =>
        by_cases hrr : rr = []
        · simp only [linksLoop, halg, if_pos hrr]
          exact ih _ ⟨lm, hmem', hget⟩
        · cases hlr : linkReplacement version api spaceKey pageId title rr l.alt with
          | none => simp only [linksLoop, halg, if_neg hrr, hlr]
          | some repl =>
            simp only [linksLoop, halg, if_neg hrr, hlr]
            exact ih _ ⟨lm, hmem', hget⟩

/-! ## The claims -/

/-- Claim C1 (counterexample).  An anchor link whose href is not a key of
the header map is not always fatal.  On the document
`<h1>A</h1><p><a href="#b">x</a></p>` (header map key `#a`, link
reference `#b` unmatched): the `md_to_conf` package variant of
`add_local_refs` returns the page unchanged, dead link included, because
`headers_map.get(ref)` yields a falsy `None` that is silently skipped;
`md2conf.py` does abort on this document, but on the headingless
`<p><a href="#b">x</a></p>` it skips link processing entirely and also
returns the page unchanged. -/
theorem claim_C1_counterexample :
    pkgAddLocalRefs 2 "default".data "http://c".data "77".data "1".data
        "T".data "<h1>A</h1><p><a href=\"#b\">x</a></p>".data
      = some "<h1>A</h1><p><a href=\"#b\">x</a></p>".data ∧
    addLocalRefs 2 "default".data "http://c".data "DEMO".data "1".data
        "T".data "<h1>A</h1><p><a href=\"#b\">x</a></p>".data = none ∧
    addLocalRefs 2 "default".data "http://c".data "DEMO".data "1".data
        "T".data "<p><a href=\"#b\">x</a></p>".data
      = some "<p><a href=\"#b\">x</a></p>".data := by
  refine ⟨by decide, by decide, by decide⟩

/-- Claim C1 (amended).  In `md2conf.py`'s `add_local_refs` with the
`default` markdown source, whenever the document has at least one heading
(so the header map is built, to `hm`) and some found anchor link's
reference is not a key of `hm`, the run is fatal: the function reaches
`sys.exit(1)`, embedded as `none`. -/
theorem claim_C1_amended (version : Nat)
    (api spaceKey pageId title html : List Char)
    (hm : List (List Char × List Char)) (cnt : List (List Char × Nat))
    (h : findHeaders html ≠ [])
    (hb : buildHM version "#".data (findHeaders html) = some (hm, cnt))
    (hbad : ∃ lm ∈ findLinks html, alGet lm.ref hm = none) :
    addLocalRefs version "default".data api spaceKey pageId title html
      = none := by
  have habort := linksLoop_abort version api spaceKey pageId title hm
    (findLinks html) html hbad
  cases hh : findHeaders html with
  | nil => exact absurd hh h
  | cons hd tl =>
    rw [hh] at hb
    rw [addLocalRefs, if_pos (Or.inl rfl), hh]
    have hpre : (if ("default".data : List Char) = "bitbucket".data
        then "#markdown-header-".data else "#".data) = "#".data := by decide
    simp only [hpre, hb]
    exact habort

/-- Claim C1 (amended, witness): the concrete document
`<h1>A</h1><p><a href="#b">x</a></p>` aborts in `md2conf.py`. -/
theorem claim_C1_amended_witness :
    addLocalRefs 2 "default".data "http://c".data "DEMO".data "1".data
        "T".data "<h1>A</h1><p><a href=\"#b\">x</a></p>".data = none :=
  claim_C1_amended 2 "http://c".data "DEMO".data "1".data "T".data
    "<h1>A</h1><p><a href=\"#b\">x</a></p>".data
    [("#a".data, "A".data)] [("#a".data, 1)]
    (by decide) (by decide) (by decide)

/-- Claim C2 (counterexample).  The `md_to_conf` package variant of
`convert_code_block` (`converter.py` / `__init__.py`) performs no `]]`
escaping: on `<pre><code>a]]>b</code></pre>` its macro wraps the body
raw, the plain-text body is `<![CDATA[a]]>b]]>`, whose CDATA section
terminates prematurely at the embedded `]]>` (the decoder rejects it),
while `md2conf.py`'s escaped body decodes back to the original. -/
theorem claim_C2_counterexample :
    pkgConvertCodeBlock "<pre><code>a]]>b</code></pre>".data
      = some "<ac:structured-macro ac:name=\"code\"><ac:parameter ac:name=\"theme\">Midnight</ac:parameter><ac:parameter ac:name=\"linenumbers\">true</ac:parameter><ac:parameter ac:name=\"language\">none</ac:parameter><ac:plain-text-body><![CDATA[a]]>b]]></ac:plain-text-body></ac:structured-macro>".data ∧
    pkgCdataBody "a]]>b".data = "<![CDATA[a]]>b]]>".data ∧
    cdataDecode (pkgCdataBody "a]]>b".data) = none ∧
    cdataDecode (mdCdataBody "a]]>b".data) = some "a]]>b".data := by
  refine ⟨by decide, by decide, by decide, by decide⟩

/-- Claim C2 (amended).  In `md2conf.py`'s `convert_code_block` every
code body is escaped before CDATA wrapping (`]]` becomes
`]]]]><![CDATA[`), so the produced plain-text body always decodes back
to exactly the original body — no premature CDATA terminator; on
`<pre><code>a]]>b</code></pre>` it produces the split-CDATA macro.  The
package variant omits the escape and wraps the same body raw. -/
theorem claim_C2_amended :
    (∀ content, cdataDecode (mdCdataBody content) = some content) ∧
    convertCodeBlock "<pre><code>a]]>b</code></pre>".data
      = some "<ac:structured-macro ac:name=\"code\"><ac:parameter ac:name=\"theme\">Midnight</ac:parameter><ac:parameter ac:name=\"linenumbers\">true</ac:parameter><ac:parameter ac:name=\"language\">none</ac:parameter><ac:plain-text-body><![CDATA[a]]]]><![CDATA[>b]]></ac:plain-text-body></ac:structured-macro>".data ∧
    pkgConvertCodeBlock "<pre><code>a]]>b</code></pre>".data
      = some "<ac:structured-macro ac:name=\"code\"><ac:parameter ac:name=\"theme\">Midnight</ac:parameter><ac:parameter ac:name=\"linenumbers\">true</ac:parameter><ac:parameter ac:name=\"language\">none</ac:parameter><ac:plain-text-body><![CDATA[a]]>b]]></ac:plain-text-body></ac:structured-macro>".data :=
  ⟨fun content => cdataDecode_cdataEscape content, by decide, by decide⟩

/-- Claim C3 (counterexample).  Blockquote classification is
case-insensitive but the prefix stripping is not: `re.sub` is called
with `re.IGNORECASE` in its `count` argument, so
`<blockquote><p>note: text</p></blockquote>` is classified as a note
yet keeps its `note:` prefix — the produced note macro's body is
`<p>Note: text</p>` (only the first character after the leading tag is
upper-cased), not the stripped `<p>Text</p>` the claim prescribes. -/
theorem claim_C3_counterexample :
    convertInfoMacros "<blockquote><p>note: text</p></blockquote>".data
      = some "<p><ac:structured-macro ac:name=\"note\"><ac:rich-text-body><p>Note: text</p></ac:rich-text-body></ac:structured-macro></p>".data ∧
    hasSub "Note: text".data
      "<p><ac:structured-macro ac:name=\"note\"><ac:rich-text-body><p>Note: text</p></ac:rich-text-body></ac:structured-macro></p>".data = true := by
  refine ⟨by decide, by decide⟩

/-- Claim C3 (amended).  Classification of blockquotes is
case-insensitive, but stripping is case-sensitive (the `re.IGNORECASE`
flag lands in `re.sub`'s `count` argument): the exact-case surface
forms `Note: `, `Note : `, `<strong>Warning:</strong> `,
`<strong>Warning :</strong> `, `<em>Note</em>: `, `<em>Note </em>: `
are stripped with the first character after the leading tag
upper-cased; any other blockquote becomes an info macro with its
content unchanged; and a lower-case `note:` prefix stays in the note
macro's body (recapitalized to `Note:`). -/
theorem claim_C3_amended :
    convertInfoMacros "<blockquote><p>Note: text</p></blockquote>".data
      = some "<p><ac:structured-macro ac:name=\"note\"><ac:rich-text-body><p>Text</p></ac:rich-text-body></ac:structured-macro></p>".data ∧
    convertInfoMacros "<blockquote><p>Note : text</p></blockquote>".data
      = some "<p><ac:structured-macro ac:name=\"note\"><ac:rich-text-body><p>Text</p></ac:rich-text-body></ac:structured-macro></p>".data ∧
    convertInfoMacros "<blockquote><p><strong>Warning:</strong> text</p></blockquote>".data
      = some "<p><ac:structured-macro ac:name=\"warning\"><ac:rich-text-body><p>Text</p></ac:rich-text-body></ac:structured-macro></p>".data ∧
    convertInfoMacros "<blockquote><p><strong>Warning :</strong> text</p></blockquote>".data
      = some "<p><ac:structured-macro ac:name=\"warning\"><ac:rich-text-body><p>Text</p></ac:rich-text-body></ac:structured-macro></p>".data ∧
    convertInfoMacros "<blockquote><p><em>Note</em>: text</p></blockquote>".data
      = some "<p><ac:structured-macro ac:name=\"note\"><ac:rich-text-body><p>Text</p></ac:rich-text-body></ac:structured-macro></p>".data ∧
    convertInfoMacros "<blockquote><p><em>Note </em>: text</p></blockquote>".data
      = some "<p><ac:structured-macro ac:name=\"note\"><ac:rich-text-body><p>Text</p></ac:rich-text-body></ac:structured-macro></p>".data ∧
    convertInfoMacros "<blockquote><p>plain</p></blockquote>".data
      = some "<p><ac:structured-macro ac:name=\"info\"><ac:rich-text-body><p>plain</p></ac:rich-text-body></ac:structured-macro></p>".data ∧
    convertInfoMacros "<blockquote><p>note: text</p></blockquote>".data
      = some "<p><ac:structured-macro ac:name=\"note\"><ac:rich-text-body><p>Note: text</p></ac:rich-text-body></ac:structured-macro></p>".data := by
  refine ⟨by decide, by decide, by decide, by decide, by decide, by decide,
    by decide, by decide⟩

/-- Claim C4 (counterexample).  The language parameter is not always the
class attribute value: the search `code class="(.*)"` is greedy, so on
`<pre><code class="py">say "hi"</code></pre>` — whose body carries a
double quote on the matched line — the capture runs to the last quote
and the macro's language parameter is `py">say "hi`, not `py`. -/
theorem claim_C4_counterexample :
    convertCodeBlock "<pre><code class=\"py\">say \"hi\"</code></pre>".data
      = some "<ac:structured-macro ac:name=\"code\"><ac:parameter ac:name=\"theme\">Midnight</ac:parameter><ac:parameter ac:name=\"linenumbers\">true</ac:parameter><ac:parameter ac:name=\"language\">py\">say \"hi</ac:parameter><ac:plain-text-body><![CDATA[say \"hi\"]]></ac:plain-text-body></ac:structured-macro>".data ∧
    hasSub "<ac:parameter ac:name=\"language\">py</ac:parameter>".data
      "<ac:structured-macro ac:name=\"code\"><ac:parameter ac:name=\"theme\">Midnight</ac:parameter><ac:parameter ac:name=\"linenumbers\">true</ac:parameter><ac:parameter ac:name=\"language\">py\">say \"hi</ac:parameter><ac:plain-text-body><![CDATA[say \"hi\"]]></ac:plain-text-body></ac:structured-macro>".data = false := by
  refine ⟨by decide, by decide⟩

/-- Claim C4 (amended).  Each `<pre><code...>...</code></pre>` fragment
becomes a code macro with theme `Midnight` and line numbers on.  The
language parameter equals the class attribute value provided no further
double quote follows on the matched line (formally: for any `lang` and
`body` with no `>`, newline or `&` in `lang`, no `</code></pre>` or `&`
in `body`, and no `"` on `body`'s first line, the block
`<pre><code class="lang">body</code></pre>` maps to the standard macro
with language `lang` and CDATA-escaped body); without a class attribute
the language is `none`; and two blocks are each converted exactly
once. -/
theorem claim_C4_amended :
    (∀ lang body, '>' ∉ lang → '\n' ∉ lang → '&' ∉ lang →
      hasSub closeCode body = false → '"' ∉ takeLine body → '&' ∉ body →
      convertCodeBlock (codeTag lang body)
        = some (stdCodeMacro lang (cdataEscape body))) ∧
    convertCodeBlock "<pre><code>print(1)</code></pre>".data
      = some "<ac:structured-macro ac:name=\"code\"><ac:parameter ac:name=\"theme\">Midnight</ac:parameter><ac:parameter ac:name=\"linenumbers\">true</ac:parameter><ac:parameter ac:name=\"language\">none</ac:parameter><ac:plain-text-body><![CDATA[print(1)]]></ac:plain-text-body></ac:structured-macro>".data ∧
    convertCodeBlock "<pre><code class=\"py\">x</code></pre><pre><code>y</code></pre>".data
      = some "<ac:structured-macro ac:name=\"code\"><ac:parameter ac:name=\"theme\">Midnight</ac:parameter><ac:parameter ac:name=\"linenumbers\">true</ac:parameter><ac:parameter ac:name=\"language\">py</ac:parameter><ac:plain-text-body><![CDATA[x]]></ac:plain-text-body></ac:structured-macro><ac:structured-macro ac:name=\"code\"><ac:parameter ac:name=\"theme\">Midnight</ac:parameter><ac:parameter ac:name=\"linenumbers\">true</ac:parameter><ac:parameter ac:name=\"language\">none</ac:parameter><ac:plain-text-body><![CDATA[y]]></ac:plain-text-body></ac:structured-macro>".data :=
  ⟨fun lang body h1 h2 h3 h4 h5 h6 =>
    convertCodeBlock_codeTag lang body h1 h2 h3 h4 h5 h6,
   by decide, by decide⟩

/-- Claim C5.  Duplicate headings are disambiguated by a per-key running
counter starting at 1: for headings `Intro`, `Intro` in version-2 mode
the map holds `#intro ↦ Intro` and the alternate key `#intro_1 ↦
Intro.1` (counter now 2), and in the full document the first
`<a href="#intro">` resolves to anchor `Intro` while the second anchor
`<a href="#intro_1">` resolves to `Intro.1`. -/
theorem claim_C5 :
    buildHM 2 "#".data ["Intro".data, "Intro".data]
      = some ([("#intro".data, "Intro".data),
               ("#intro_1".data, "Intro.1".data)],
              [("#intro".data, 2)]) ∧
    addLocalRefs 2 "default".data "http://c".data "DEMO".data "1".data
        "T".data
        "<h1>Intro</h1>\n<h2>Intro</h2>\n<p><a href=\"#intro\">first</a> and <a href=\"#intro_1\">second</a></p>".data
      = some "<h1>Intro</h1>\n<h2>Intro</h2>\n<p><a href=\"http://c/spaces/DEMO/pages/1/T#Intro\" title=\"first\">first</a> and <a href=\"http://c/spaces/DEMO/pages/1/T#Intro.1\" title=\"second\">second</a></p>".data := by
  refine ⟨by decide, by decide⟩

/-- Claim C6.  For every heading text `H`, `slug(H, true)` is idempotent,
every character of it is in `[a-z0-9-]` (so lower-case), and it contains
no HTML tag or entity characters and no spaces. -/
theorem claim_C6 (H : List Char) :
    slug (slug H true) true = slug H true ∧
    (∀ c ∈ slug H true,
      (97 ≤ c.toNat ∧ c.toNat ≤ 122) ∨ (48 ≤ c.toNat ∧ c.toNat ≤ 57)
        ∨ c = '-') ∧
    '<' ∉ slug H true ∧ '>' ∉ slug H true ∧ '&' ∉ slug H true ∧
    ';' ∉ slug H true ∧ ' ' ∉ slug H true ∧
    (∀ c ∈ slug H true, ¬ (65 ≤ c.toNat ∧ c.toNat ≤ 90)) := by
  refine ⟨slug_idem H, slug_charset H, ?_, ?_, ?_, ?_, ?_, ?_⟩
  · intro hmem
    exact absurd (slug_charset H _ hmem) (by decide)
  · intro hmem
    exact absurd (slug_charset H _ hmem) (by decide)
  · intro hmem
    exact absurd (slug_charset H _ hmem) (by decide)
  · intro hmem
    exact absurd (slug_charset H _ hmem) (by decide)
  · intro hmem
    exact absurd (slug_charset H _ hmem) (by decide)
  · intro c hmem hupper
    obtain ⟨hu1, hu2⟩ := hupper
    rcases slug_charset H _ hmem with ⟨h1, h2⟩ | ⟨h1, h2⟩ | h1
    · omega
    · omega
    · subst h1
      revert hu1
      decide

/-- Claim C7.  Footnote round-trip: on
`<p>Text[^1]</p>` plus the definition line
`[^1]: <a href="http://x">http://x</a>`, `process_refs` removes the
definition line and replaces the `[^1]` citation with the superscript
anchor `<a id="test" href="http://x"><sup>1</sup></a>`. -/
theorem claim_C7 :
    processRefs "<p>Text[^1]</p>\n[^1]: <a href=\"http://x\">http://x</a>".data
      = some "<p>Text<a id=\"test\" href=\"http://x\"><sup>1</sup></a></p>\n".data ∧
    hasSub "[^1]".data
      "<p>Text<a id=\"test\" href=\"http://x\"><sup>1</sup></a></p>\n".data
      = false ∧
    hasSub "<a id=\"test\" href=\"http://x\"><sup>1</sup></a>".data
      "<p>Text<a id=\"test\" href=\"http://x\"><sup>1</sup></a></p>\n".data
      = true := by
  refine ⟨by decide, by decide, by decide⟩

/-- Claim C8.  Blockquote conversion is not total: on
`<blockquote><em>Note:</em> text</blockquote>` the quote is classified
as a note, `strip_type`'s fifth pattern consumes the whole
`<em>Note:</em> ` prefix leaving the tag-less `text`, its search for a
leading HTML tag returns `None`, and `string_start.end()` raises
`AttributeError` — embedded here as `none` for both the stripping step
and the full conversion. -/
theorem claim_C8 :
    convertInfoMacros "<blockquote><em>Note:</em> text</blockquote>".data
      = none ∧
    stripTypeF "Note".data "<em>Note:</em> text".data = none := by
  refine ⟨by decide, by decide⟩

/-- Claim C9.  `process_refs` only recognizes single-digit footnote ids:
whenever the findall matches nothing the html is returned unchanged,
and for any two digits `a`, `b` the document
`x[^ab]` + newline + `[^ab]: y` — a multi-digit definition line with a
multi-digit citation — yields no match at all, so both the definition
line and the citation are left unchanged in the output. -/
theorem claim_C9 (a b : Char) (ha : a.isDigit = true)
    (hb : b.isDigit = true) :
    (∀ s, findRefs s = [] → processRefs s = some s) ∧
    findRefs ("x[^".data ++ [a, b] ++ "]\n[^".data ++ [a, b]
      ++ "]: y".data) = [] ∧
    processRefs ("x[^".data ++ [a, b] ++ "]\n[^".data ++ [a, b]
        ++ "]: y".data)
      = some ("x[^".data ++ [a, b] ++ "]\n[^".data ++ [a, b]
        ++ "]: y".data) := by
  have hgen : ∀ s, findRefs s = [] → processRefs s = some s := by
    intro s hs
    rw [processRefs, hs]
    rfl
  have h1 := digit_beq_false '\n' a (by decide) ha
  have h2 := digit_beq_false '<' a (by decide) ha
  have h3 := digit_beq_false '\n' b (by decide) hb
  have h4 := digit_beq_false '<' b (by decide) hb
  have h5 : ¬ (b = ']') := by
    intro h
    rw [h] at hb
    exact absurd hb (by decide)
  have hfind : findRefs ("x[^".data ++ [a, b] ++ "]\n[^".data ++ [a, b]
      ++ "]: y".data) = [] := by
    simp [findRefs, findRefsF, refBody, leadsWith, h1, h2, h3, h4, h5]
  exact ⟨hgen, hfind, hgen _ hfind⟩

/-- Claim C9 (witness): the concrete two-digit id `10` in
`x[^10]` + newline + `[^10]: y` matches nothing and the document is
returned unchanged. -/
theorem claim_C9_witness :
    findRefs ("x[^".data ++ ['1', '0'] ++ "]\n[^".data ++ ['1', '0']
      ++ "]: y".data) = [] ∧
    processRefs ("x[^".data ++ ['1', '0'] ++ "]\n[^".data ++ ['1', '0']
        ++ "]: y".data)
      = some ("x[^".data ++ ['1', '0'] ++ "]\n[^".data ++ ['1', '0']
        ++ "]: y".data) :=
  ⟨(claim_C9 '1' '0' (by decide) (by decide)).2.1,
   (claim_C9 '1' '0' (by decide) (by decide)).2.2⟩

/-- Claim C10.  After a successful query, `get_page` returns the Python
boolean `False` when the results array is empty — not a record, not an
exception, not an exit — and a `PageInfo` namedtuple built from the
first result otherwise; `main` (without the delete flag) branches on
that truthiness: `False` leads to create-page, a namedtuple to
update-page. -/
theorem claim_C10 :
    (∀ api, getPageOf api [] = GetPageResult.boolFalse) ∧
    pageTruthy GetPageResult.boolFalse = false ∧
    (∀ api r rs, getPageOf api (r :: rs)
      = GetPageResult.page ⟨r.rid, r.versionNum, api ++ r.webui, r.props⟩) ∧
    mainBranch false GetPageResult.boolFalse = MainAction.createPage ∧
    (∀ p, mainBranch false (GetPageResult.page p)
      = MainAction.updatePage) :=
  ⟨fun _ => rfl, rfl, fun _ _ _ => rfl, rfl, fun _ => rfl⟩
